import Mathlib

/-!
Verification of the core rendering engine of a small Rust path tracer
(`src/matrix.rs`, `src/scene.rs`, `src/tracer.rs`, `src/main.rs`).

Shallow embedding conventions:

* `f64` is modelled by `ℝ`.  Rust's `f64::sqrt` is `Real.sqrt`.  Division by
  zero yields `0` in the embedding where Rust would yield `inf`/NaN; every
  theorem below that touches such a case is phrased so that its truth value
  agrees under both conventions (this is noted at the theorem).
* `u16` counters are modelled by `ℕ` together with an explicit `% 65536`
  (wrap-around) where the increment can overflow.  Rust's debug builds would
  panic instead of wrapping; the wrap is the release semantics.
* The thread RNG is modelled by two streams: `u : ℕ → ℝ` for the successive
  `rng.gen::<f64>()` draws and `v : ℕ → Vec3` for the successive results of
  `Vector::random_unit_vector` (whose Box–Muller internals are not needed by
  any claim; only the reflection code consumes it, via
  `random_hemisphere_vector` which is embedded faithfully on top of the
  stream).
* `scene.rs` in the given snapshot is older than `tracer.rs`/`main.rs`: the
  fields `PhysProp.opacity`, `Scene.ground_color`, `Scene.horizon_color` and
  `Intersect.is_entry` are used (and, for the first three, constructed in
  `main.rs`) but their declarations are missing from `scene.rs`.  The fields
  are added to the embedded records; the value of `is_entry` produced by the
  intersection routines is modelled from the spec (see `Sphere.intersect`),
  since its computing code is not part of the snapshot.
* Mutation becomes explicit state passing; the `Framebuffer` trait object a
  routine writes into becomes either a state type with a `set` operation
  passed explicitly, or the canonical functional store `Target`.
-/

namespace RayTracer

noncomputable section

/-- Components of `Vector<3>` from `matrix.rs` (an `f64` triple). -/
structure Vec3 where
  x : ℝ
  y : ℝ
  z : ℝ
deriving DecidableEq

instance : Add Vec3 := ⟨fun a b => ⟨a.x + b.x, a.y + b.y, a.z + b.z⟩⟩

instance : Sub Vec3 := ⟨fun a b => ⟨a.x - b.x, a.y - b.y, a.z - b.z⟩⟩

/-- Componentwise vector-vector multiplication (the `vv_op!(Mul, ...)` instance). -/
instance : Mul Vec3 := ⟨fun a b => ⟨a.x * b.x, a.y * b.y, a.z * b.z⟩⟩

/-- Componentwise vector-vector division (the `vv_op!(Div, ...)` instance). -/
instance : Div Vec3 := ⟨fun a b => ⟨a.x / b.x, a.y / b.y, a.z / b.z⟩⟩

instance : Neg Vec3 := ⟨fun a => ⟨-a.x, -a.y, -a.z⟩⟩

/-- Vector-scalar multiplication (the `vf_op!(Mul, ...)` instance). -/
instance : HMul Vec3 ℝ Vec3 := ⟨fun a r => ⟨a.x * r, a.y * r, a.z * r⟩⟩

/-- Vector-scalar division (the `vf_op!(Div, ...)` instance). -/
instance : HDiv Vec3 ℝ Vec3 := ⟨fun a r => ⟨a.x / r, a.y / r, a.z / r⟩⟩

/-- Dot product, `Vector::dot`. -/
def Vec3.dot (a b : Vec3) : ℝ := a.x * b.x + a.y * b.y + a.z * b.z

/-- Sum of squared components, `Vector::sqr_magnitude`. -/
def Vec3.sqr_magnitude (a : Vec3) : ℝ := a.x * a.x + a.y * a.y + a.z * a.z

/-- Euclidean length, `Vector::magnitude`. -/
def Vec3.magnitude (a : Vec3) : ℝ := Real.sqrt a.sqr_magnitude

/-- Normalisation, `Vector::as_unit_vector` (divides by the magnitude). -/
def Vec3.as_unit_vector (a : Vec3) : Vec3 := a / a.magnitude

/-- The 3×3 `f64` matrix from `matrix.rs`; `rᵢ` is row `i` (`data[i]`). -/
structure Matrix3 where
  r0 : Vec3
  r1 : Vec3
  r2 : Vec3

/-- `Matrix::identity()`. -/
def Matrix3.identity : Matrix3 := ⟨⟨1, 0, 0⟩, ⟨0, 1, 0⟩, ⟨0, 0, 1⟩⟩

/-- Vector-matrix multiplication `v * m` from `matrix.rs`:
`out[i] = Σ_j m.data[j][i] * v[j]` (row vector times stored rows). -/
def Matrix3.vecMul (v : Vec3) (m : Matrix3) : Vec3 :=
  ⟨m.r0.x * v.x + m.r1.x * v.y + m.r2.x * v.z,
   m.r0.y * v.x + m.r1.y * v.y + m.r2.y * v.z,
   m.r0.z * v.x + m.r1.z * v.y + m.r2.z * v.z⟩

/-- `Transform` from `scene.rs`: position, scale, Euler angles and the cached
rotation matrix with its inverse. -/
structure Transform where
  pos : Vec3
  scale : Vec3
  angle : Vec3
  mtx : Matrix3
  inv_mtx : Matrix3

/-- `Transform::identity()`. -/
def Transform.identity : Transform :=
  ⟨⟨0, 0, 0⟩, ⟨1, 1, 1⟩, ⟨0, 0, 0⟩, Matrix3.identity, Matrix3.identity⟩

/-- `Transform::set_pos` (does not regenerate the cached matrices). -/
def Transform.set_pos (t : Transform) (pos : Vec3) : Transform := { t with pos := pos }

/-- `Transform::world_to_local`: subtract position, apply the inverse matrix,
divide componentwise by scale. -/
def Transform.world_to_local (t : Transform) (pos : Vec3) : Vec3 :=
  (Matrix3.vecMul (pos - t.pos) t.inv_mtx) / t.scale

/-- `Transform::local_to_world`: multiply by scale, apply the matrix, add
position. -/
def Transform.local_to_world (t : Transform) (pos : Vec3) : Vec3 :=
  Matrix3.vecMul (pos * t.scale) t.mtx + t.pos

/-- `Transform::normal_world_to_local` (rotation only). -/
def Transform.normal_world_to_local (t : Transform) (normal : Vec3) : Vec3 :=
  Matrix3.vecMul normal t.inv_mtx

/-- `Transform::normal_local_to_world` (rotation only). -/
def Transform.normal_local_to_world (t : Transform) (normal : Vec3) : Vec3 :=
  Matrix3.vecMul normal t.mtx

/-- `Ray` from `scene.rs`: origin `pos` and direction `normal`. -/
structure Ray where
  pos : Vec3
  normal : Vec3

/-- `Transform::ray_world_to_local`. -/
def Transform.ray_world_to_local (t : Transform) (ray : Ray) : Ray :=
  ⟨t.world_to_local ray.pos, t.normal_world_to_local ray.normal⟩

/-- `Transform::ray_local_to_world`. -/
def Transform.ray_local_to_world (t : Transform) (ray : Ray) : Ray :=
  ⟨t.local_to_world ray.pos, t.normal_local_to_world ray.normal⟩

/-- `PhysProp` from `scene.rs`.  The `opacity` field is used by `tracer.rs` and
constructed in `main.rs` but its declaration is missing from the (older)
`scene.rs` snapshot; it is included here, with the spec's range `[0,1]` not
baked into the type. -/
structure PhysProp where
  ior : ℝ
  opacity : ℝ
  roughness : ℝ
  color : Vec3
  emission : Vec3

/-- `Intersect` from `scene.rs`.  The `is_entry` flag is used by `tracer.rs`
but missing from the older `scene.rs` snapshot; it is included here. -/
structure Intersect where
  pos : Vec3
  normal : Vec3
  prop : PhysProp
  distance : ℝ
  is_entry : Bool

/-- `Sphere` from `scene.rs`. -/
structure Sphere where
  transform : Transform
  radius : ℝ
  prop : PhysProp

/-- `Sphere::intersect` from `scene.rs` (lines 166-200), translated branch by
branch: local-space ray, `a = -dot(normal, pos)`,
`b = a² - |pos|² + radius²`; reject `b < 0`; tangent case `b < 1e-8` accepts
distance `a` iff `a > 1e-8`; otherwise `dist0 = a + √b`, `dist1 = a - √b` with
the source's conditions `dist0 < dist1 && dist0 > 1e-8` and `dist1 > 1e-8`.
The `is_entry` value is *modelled from the spec* (its computing code is not in
the snapshot): true iff the local ray origin's squared distance from the
center exceeds `radius²`.

`Sphere.hit` is the `Intersect` record built at scene.rs lines 192-199 for an
accepted `distance` along the local-space `ray`. -/
def Sphere.hit (s : Sphere) (ray : Ray) (distance : ℝ) : Intersect :=
  { pos := s.transform.local_to_world (ray.pos + ray.normal * distance)
    normal := s.transform.normal_local_to_world ((ray.pos + ray.normal * distance) / s.radius)
    prop := s.prop
    distance := distance
    is_entry := decide (s.radius * s.radius < ray.pos.sqr_magnitude) }

/-- The branch structure of `Sphere::intersect`, with `dist0 = a + √b` and
`dist1 = a - √b` inlined at their use sites (the Rust `let` bindings are pure
naming). -/
def Sphere.intersect (s : Sphere) (ray : Ray) : Option Intersect :=
  let ray := s.transform.ray_world_to_local ray
  let a : ℝ := -(ray.normal.dot ray.pos)
  let b : ℝ := a * a - ray.pos.sqr_magnitude + s.radius * s.radius
  if b < 0 then none
  else if b < 0.00000001 then
    if a > 0.00000001 then some (s.hit ray a) else none
  else if a + Real.sqrt b < a - Real.sqrt b ∧ a + Real.sqrt b > 0.00000001 then
    some (s.hit ray (a + Real.sqrt b))
  else if a - Real.sqrt b > 0.00000001 then some (s.hit ray (a - Real.sqrt b))
  else none

/-- Rust `f64::signum` restricted to the values representable in `ℝ`:
`1` for positive and `+0.0`, `-1` for negative (`-0.0` and NaN do not exist
in the embedding). -/
def signum (x : ℝ) : ℝ := if x < 0 then -1 else 1

/-- `Plane` from `scene.rs`. -/
structure Plane where
  transform : Transform
  prop : PhysProp

/-- `Plane::intersect` from `scene.rs` (lines 212-231): reject near-parallel
rays (`|dz| < 1e-8`), distance `-pz/dz`, reject `distance ≤ 1e-8`, reject hit
points outside the unit square.  The plane bounds no volume; `is_entry` (not
in the snapshot) is modelled as `true` (no claim depends on its value for
planes).  `Plane.hit` is the `Intersect` record built at scene.rs lines
225-230 for an accepted `distance` along the local-space `ray`. -/
def Plane.hit (p : Plane) (ray : Ray) (distance : ℝ) : Intersect :=
  { pos := p.transform.local_to_world (ray.pos + ray.normal * distance)
    normal := p.transform.normal_local_to_world ⟨0, 0, signum ray.pos.z⟩
    prop := p.prop
    distance := distance
    is_entry := true }

/-- The branch structure of `Plane::intersect`, with the Rust `let` bindings
`distance = -pz/dz` and `pos` inlined at their use sites. -/
def Plane.intersect (p : Plane) (ray : Ray) : Option Intersect :=
  let ray := p.transform.ray_world_to_local ray
  if |ray.normal.z| < 0.00000001 then none
  else if -ray.pos.z / ray.normal.z ≤ 0.00000001 then none
  else if |(ray.pos + ray.normal * (-ray.pos.z / ray.normal.z)).x| > 1 ∨
      |(ray.pos + ray.normal * (-ray.pos.z / ray.normal.z)).y| > 1 then none
  else some (p.hit ray (-ray.pos.z / ray.normal.z))

/-- The closed set of primitives behind `dyn Object` (`{Sphere, Plane}`). -/
inductive Obj where
  | sphere (s : Sphere)
  | plane (p : Plane)

/-- Dynamic dispatch of `Object::intersect` over the closed variant set. -/
def Obj.intersect (o : Obj) (ray : Ray) : Option Intersect :=
  match o with
  | .sphere s => s.intersect ray
  | .plane p => p.intersect ray

/-- `Scene` from `scene.rs`.  `ground_color` and `horizon_color` are used by
`tracer.rs` and constructed in `main.rs` but missing from the older
`scene.rs` snapshot; they are included here. -/
structure Scene where
  objects : List Obj
  ground_color : Vec3
  horizon_color : Vec3
  skybox_color : Vec3
  sun_color : Vec3
  sun_direction : Vec3
  sun_radius : ℝ

/-- `Tracer` from `tracer.rs` (the `u16` sample-count fields are `ℕ` here;
wrap-around is made explicit at their use site in `trace_multi_ray`). -/
structure Tracer where
  max_reflect : ℕ
  max_refract : ℕ
  fov : ℝ
  reflect_samples : ℕ
  refract_samples : ℕ

/-- `Tracer::get_intersection` (tracer.rs lines 68-82): linear scan keeping
the current best, replacing it only when the new intersection is strictly
closer.  The `&self` receiver is unused by the source body and dropped. -/
def Tracer.get_intersection (scene : Scene) (ray : Ray) : Option Intersect :=
  scene.objects.foldl
    (fun out o =>
      match o.intersect ray with
      | none => out
      | some intersect =>
        match out with
        | none => some intersect
        | some cur => if cur.distance > intersect.distance then some intersect else out)
    none

/-- Model of the worker's `ThreadRng`: `u` is the stream of successive
`rng.gen::<f64>()` results and `v` the stream of successive
`Vector::random_unit_vector` results (see the header note). -/
structure Rng where
  u : ℕ → ℝ
  v : ℕ → Vec3

/-- One `rng.gen::<f64>()` draw: the head of the uniform stream, advancing it. -/
def Rng.next (g : Rng) : ℝ × Rng := (g.u 0, ⟨fun n => g.u (n + 1), g.v⟩)

/-- One `Vector::random_unit_vector(rng)` result: the head of the unit-vector
stream, advancing it. -/
def Rng.nextUnitVec (g : Rng) : Vec3 × Rng := (g.v 0, ⟨g.u, fun n => g.v (n + 1)⟩)

/-- `Vector::random_hemisphere_vector` from `matrix.rs`: draw a random unit
vector and flip it when it points away from `relative_to`. -/
def Rng.hemisphereVec (g : Rng) (relative_to : Vec3) : Vec3 × Rng :=
  let (tmp, g') := g.nextUnitVec
  (if tmp.dot relative_to < 0 then -tmp else tmp, g')

/-- `RayTraceResult` from `tracer.rs`. -/
structure RayTraceResult where
  color : Vec3
  did_reflect : Bool
  did_refract : Bool

/-- The branch condition at tracer.rs line 113, verbatim:
`!intersect.is_entry || refract_rng > intersect.prop.opacity` selects the
refraction branch. -/
def branchIsRefraction (intersect : Intersect) (refract_rng : ℝ) : Prop :=
  ¬intersect.is_entry = true ∨ refract_rng > intersect.prop.opacity

instance (i : Intersect) (r : ℝ) : Decidable (branchIsRefraction i r) := by
  unfold branchIsRefraction; infer_instance

/-- The refraction branch body (tracer.rs lines 114-124): choose indices and
normal by `is_entry`, then bend the ray.  `Real.sqrt` of a negative argument
is `0` here where Rust produces NaN (the unguarded total-internal-reflection
gap called out by the spec; no claim below evaluates that case). -/
def refractRay (ray : Ray) (intersect : Intersect) : Ray :=
  let ior0 : ℝ := if intersect.is_entry then 1 else intersect.prop.ior
  let ior1 : ℝ := if intersect.is_entry then intersect.prop.ior else 1
  let normal : Vec3 := if intersect.is_entry then -intersect.normal else intersect.normal
  let ratio := ior0 / ior1
  let dot := ray.normal.dot normal
  { pos := intersect.pos
    normal := ray.normal * ratio +
      normal * (Real.sqrt (1 - ratio * ratio * (1 - dot * dot)) - ratio * dot) }

/-- The reflection branch body (tracer.rs lines 126-136): blend the mirror
direction with a random-hemisphere direction by roughness.  `hemi` is the
already-drawn `random_hemisphere_vector` result. -/
def reflectRay (ray : Ray) (intersect : Intersect) (hemi : Vec3) : Ray :=
  let diff_normal := (hemi + intersect.normal).as_unit_vector
  let spec_normal :=
    (ray.normal - intersect.normal * (2 * ray.normal.dot intersect.normal)).as_unit_vector
  { pos := intersect.pos
    normal := spec_normal + (diff_normal - spec_normal) * intersect.prop.roughness }

/-- The miss contribution (tracer.rs lines 138-155): vertical gradient between
ground/horizon/skybox colors plus the sun-disc blend. -/
def missColor (scene : Scene) (ray : Ray) (color color_mask : Vec3) : Vec3 :=
  let coeff₀ := ray.normal.y * 3
  let coeff := if coeff₀ < -1 then -1 else if coeff₀ > 1 then 1 else coeff₀
  let base :=
    if coeff ≥ 0 then scene.horizon_color + (scene.ground_color - scene.horizon_color) * coeff
    else scene.horizon_color + (scene.skybox_color - scene.horizon_color) * (-coeff)
  let sun_dot := ray.normal.dot scene.sun_direction
  if sun_dot ≥ scene.sun_radius then
    let sun_coeff := (sun_dot - scene.sun_radius) / (1 - scene.sun_radius)
    color + color_mask * (base + (scene.sun_color - base) * sun_coeff)
  else
    color + color_mask * base

/-- The `loop` of `Tracer::trace_single_ray` (tracer.rs lines 98-156) with the
mutable state made explicit: `reflect` is the remaining bounce budget, `color`
and `color_mask` the accumulators, `dr`/`df` the `did_reflect`/`did_refract`
flags.  The `u16` decrement `reflect -= 1` is the `ℕ` truncated subtraction;
they agree because every caller starts from `max_reflect ≥ 1` and the loop
stops at zero (a Rust release build would wrap on a start value of 0). -/
def traceLoop (t : Tracer) (scene : Scene) (reflect : ℕ) (ray : Ray)
    (color color_mask : Vec3) (dr df : Bool) (g : Rng) : RayTraceResult × Rng :=
  match Tracer.get_intersection scene ray with
  | some intersect =>
    let color := color + color_mask * intersect.prop.emission
    let color_mask := color_mask * intersect.prop.color
    if h : reflect - 1 = 0 then ({ color := color, did_reflect := true, did_refract := df }, g)
    else
      let (refract_rng, g) := g.next
      if branchIsRefraction intersect refract_rng then
        traceLoop t scene (reflect - 1) (refractRay ray intersect) color color_mask true df g
      else
        let (hemi, g) := g.hemisphereVec intersect.normal
        traceLoop t scene (reflect - 1) (reflectRay ray intersect hemi) color color_mask true df g
  | none => ({ color := missColor scene ray color color_mask, did_reflect := dr, did_refract := df }, g)
termination_by reflect
decreasing_by all_goals omega

/-- `Tracer::trace_single_ray` (tracer.rs lines 85-157). -/
def Tracer.trace_single_ray (t : Tracer) (scene : Scene) (ray : Ray) (g : Rng) :
    RayTraceResult × Rng :=
  traceLoop t scene t.max_reflect ray ⟨0, 0, 0⟩ ⟨1, 1, 1⟩ false false g

/-- The `for _ in 0..samples` loop of `trace_multi_ray`: accumulate the colors
of `n` further samples onto `acc`, threading the RNG. -/
def extraSamples (t : Tracer) (scene : Scene) (ray : Ray) :
    ℕ → Vec3 → Rng → Vec3 × Rng
  | 0, acc, g => (acc, g)
  | n + 1, acc, g =>
    let (r, g') := t.trace_single_ray scene ray g
    extraSamples t scene ray n (acc + r.color) g'

/-- `Tracer::trace_multi_ray` (tracer.rs lines 160-169).  The sample count is
`did_reflect as u16 * reflect_samples + did_refract as u16 * refract_samples`,
a `u16` sum, hence the explicit `% 65536`; the division is by
`(samples + 1) as f64`, where `samples + 1` is again `u16` addition and so
also wraps — at `samples = 65535` the release-mode divisor is `0` (a debug
build panics on the overflow instead), hence the second `% 65536`.  (At that
wrap point the embedding's real division by zero yields `0` where `f64`
yields `inf`/NaN; the theorems below exclude the wrap by hypothesis and never
rely on either convention.) -/
def Tracer.trace_multi_ray (t : Tracer) (scene : Scene) (ray : Ray) (g : Rng) :
    RayTraceResult × Rng :=
  let (tmp, g₁) := t.trace_single_ray scene ray g
  let samples : ℕ :=
    ((cond tmp.did_reflect 1 0) * t.reflect_samples +
     (cond tmp.did_refract 1 0) * t.refract_samples) % 65536
  let (total, g₂) := extraSamples t scene ray samples tmp.color g₁
  ({ tmp with color := total / ((((samples + 1) % 65536 : ℕ)) : ℝ) }, g₂)

/-- Canonical functional model of a `dyn Framebuffer` write target: a store of
pixel colors indexed by `(x, y)`. -/
def Target : Type := ℕ × ℕ → Vec3

/-- `set_pixel` on the functional target: point update. -/
def targetSet (t : Target) (x y : ℕ) (col : Vec3) : Target :=
  fun p => if p = (x, y) then col else t p

/-- `PartialFramebuffer` from `tracer.rs`: a compact buffer owning every pixel
whose linear index is `interlace_offset` modulo `interlace_count`. -/
structure PartialFramebuffer where
  data : List Vec3
  width : ℕ
  height : ℕ
  interlace_count : ℕ
  interlace_offset : ℕ

/-- The buffer length computed by both `PartialFramebuffer::new` and
`PartialFramebuffer::update` (tracer.rs lines 296-301 and 314-319):
`w*h/N`, plus one when `w*h % N > offset`. -/
def interlaceLen (width height interlace_count interlace_offset : ℕ) : ℕ :=
  let length := width * height
  if length % interlace_count > interlace_offset then length / interlace_count + 1
  else length / interlace_count

/-- `PartialFramebuffer::new`: zero-initialised compact buffer. -/
def PartialFramebuffer.new (width height interlace_count interlace_offset : ℕ) :
    PartialFramebuffer :=
  { data := List.replicate (interlaceLen width height interlace_count interlace_offset) ⟨0, 0, 0⟩
    width := width
    height := height
    interlace_count := interlace_count
    interlace_offset := interlace_offset }

/-- `PartialFramebuffer::set_pixel` (tracer.rs lines 338-345): return
unchanged unless the pixel's linear index is owned, else store at the packed
index.  `List.set` out of range is a no-op where Rust would panic; every
owned in-bounds pixel stores in range (proved below). -/
def PartialFramebuffer.set_pixel (fb : PartialFramebuffer) (x y : ℕ) (col : Vec3) :
    PartialFramebuffer :=
  let index := x + y * fb.width
  if index % fb.interlace_count ≠ fb.interlace_offset then fb
  else { fb with data := fb.data.set (index / fb.interlace_count) col }

/-- `PartialFramebuffer::update` (tracer.rs lines 311-326): scatter the packed
entries back to `(x, y)` positions of a framebuffer capability (here the
state/`set` pair).  The source's width/height equality assertions relate two
concrete buffers; the abstract target carries no dimensions. -/
def PartialFramebuffer.update {σ : Type} (set : σ → ℕ → ℕ → Vec3 → σ)
    (fb : PartialFramebuffer) (other : σ) : σ :=
  (List.range (interlaceLen fb.width fb.height fb.interlace_count fb.interlace_offset)).foldl
    (fun t i =>
      let index := i * fb.interlace_count + fb.interlace_offset
      set t (index % fb.width) (index / fb.width) (fb.data.getD i ⟨0, 0, 0⟩))
    other

/-- `Tracer::trace_partial_image` (tracer.rs lines 231-266) under the
deterministic zero-jitter hypothesis of the spec's parallel-determinism
property: with the jitter fixed at zero and the per-ray sampling
deterministic, the color written at `(x, y)` is a function `render x y` of
the pixel alone (camera-ray construction composed with the trace), identical
across worker counts.  The interlace skip, the write, and the row-major loop
over the full-frame bounds `(0, 0, w, h)` used by `trace_image_async` are
embedded verbatim; the framebuffer written into is the state/`set` pair
(`PartialFramebuffer::set_pixel` for a worker, the shared target for the
1-worker path). -/
def tracePartialImage {σ : Type} (set : σ → ℕ → ℕ → Vec3 → σ) (render : ℕ → ℕ → Vec3)
    (fb : σ) (width height interlace_amount interlace_offset : ℕ) : σ :=
  (List.range height).foldl
    (fun fb y =>
      (List.range width).foldl
        (fun fb x =>
          if (x + y * width) % interlace_amount ≠ interlace_offset then fb
          else set fb x y (render x y))
        fb)
    fb

/-- `Tracer::trace_image_async` (tracer.rs lines 172-214) at the merge level:
each of the `num_threads` workers renders its interlaced subset into a fresh
`PartialFramebuffer`, and after the join every partial buffer is scattered
into the target in worker order. -/
def traceImageAsync (render : ℕ → ℕ → Vec3) (width height num_threads : ℕ)
    (fb : Target) : Target :=
  (List.range num_threads).foldl
    (fun t i =>
      (tracePartialImage PartialFramebuffer.set_pixel render
          (PartialFramebuffer.new width height num_threads i) width height num_threads i).update
        targetSet t)
    fb

/-- `SmoothingFramebuffer` from `tracer.rs`: per-pixel running sums and the
`u16` frame counter. -/
structure SmoothingFramebuffer where
  buffer : List Vec3
  frame : ℕ
  width : ℕ
  height : ℕ

/-- `SmoothingFramebuffer::new`: zeroed sums, frame counter 0. -/
def SmoothingFramebuffer.new (width height : ℕ) : SmoothingFramebuffer :=
  { buffer := List.replicate (width * height) ⟨0, 0, 0⟩
    frame := 0
    width := width
    height := height }

/-- The linear pixel index `y * width + x` used by `SmoothingFramebuffer`. -/
def SmoothingFramebuffer.pixelIndex (fb : SmoothingFramebuffer) (x y : ℕ) : ℕ :=
  y * fb.width + x

/-- The two assertions guarding `SmoothingFramebuffer::set_pixel`
(tracer.rs lines 389-390), verbatim: `x <= width` and `y <= height`. -/
def SmoothingFramebuffer.setPixelAsserts (fb : SmoothingFramebuffer) (x y : ℕ) : Prop :=
  x ≤ fb.width ∧ y ≤ fb.height

/-- `SmoothingFramebuffer::set_pixel` (tracer.rs lines 388-392): accumulate
`col` onto the running sum at `y*width + x`.  The embedding is total: reading
or writing out of range is a harmless default/no-op where Rust would panic;
claim C9 relates the assertion predicate to the genuine in-bounds condition. -/
def SmoothingFramebuffer.set_pixel (fb : SmoothingFramebuffer) (x y : ℕ) (col : Vec3) :
    SmoothingFramebuffer :=
  { fb with
    buffer := fb.buffer.set (fb.pixelIndex x y) (fb.buffer.getD (fb.pixelIndex x y) ⟨0, 0, 0⟩ + col) }

/-- `SmoothingFramebuffer::update` (tracer.rs lines 365-374): increment the
`u16` frame counter (wrap-around made explicit), then write
`sum * (1 / frame)` for every pixel to the output capability. -/
def SmoothingFramebuffer.update (fb : SmoothingFramebuffer) (out : Target) :
    SmoothingFramebuffer × Target :=
  let frame := (fb.frame + 1) % 65536
  let scale : ℝ := 1 / (frame : ℝ)
  let out :=
    (List.range fb.height).foldl
      (fun t y =>
        (List.range fb.width).foldl
          (fun t x => targetSet t x y (fb.buffer.getD (y * fb.width + x) ⟨0, 0, 0⟩ * scale))
          t)
      out
  ({ fb with frame := frame }, out)

/-- One progressive frame contributing the constant color `c` at pixel
`(x, y)`: accumulate via `set_pixel`, then display via `update` (the render
loop of `main.rs` with a single written pixel). -/
def accumulateFrame (c : Vec3) (x y : ℕ) (st : SmoothingFramebuffer × Target) :
    SmoothingFramebuffer × Target :=
  (st.1.set_pixel x y c).update st.2

/-- `k` successive frames each contributing `c` at `(x, y)`. -/
def accumulateFrames (c : Vec3) (x y : ℕ) (st : SmoothingFramebuffer × Target) :
    ℕ → SmoothingFramebuffer × Target
  | 0 => st
  | k + 1 => accumulateFrame c x y (accumulateFrames c x y st k)

/-- Diffuse red material (`PhysProp::from_color` with an opaque default). -/
def propRed : PhysProp := ⟨1, 1, 1, ⟨1, 0, 0⟩, ⟨0, 0, 0⟩⟩

/-- The claim C1 scenario: sphere centered at `(0,0,2)` with radius `0.5`. -/
def sphereC1 : Sphere := ⟨Transform.identity.set_pos ⟨0, 0, 2⟩, 1 / 2, propRed⟩

/-- The claim C1 scenario ray: origin `(0,0,2)` (the sphere center), direction
`(0,0,1)`. -/
def rayC1 : Ray := ⟨⟨0, 0, 2⟩, ⟨0, 0, 1⟩⟩

/-- Clear white material: ior 1, opacity `1/2`, roughness 0, no emission. -/
def propGlass : PhysProp := ⟨1, 1 / 2, 0, ⟨1, 1, 1⟩, ⟨0, 0, 0⟩⟩

/-- Unit sphere of `propGlass` centered at `(0,0,2)`. -/
def sphereGlass : Sphere := ⟨Transform.identity.set_pos ⟨0, 0, 2⟩, 1, propGlass⟩

/-- Scene holding only `sphereGlass`, black environment except a sun of color
`(2,2,2)` straight ahead (`sun_direction = (0,0,1)`, `sun_radius = 0.9`). -/
def sceneGlass : Scene :=
  { objects := [Obj.sphere sphereGlass]
    ground_color := ⟨0, 0, 0⟩
    horizon_color := ⟨0, 0, 0⟩
    skybox_color := ⟨0, 0, 0⟩
    sun_color := ⟨2, 2, 2⟩
    sun_direction := ⟨0, 0, 1⟩
    sun_radius := 9 / 10 }

/-- Camera ray of the `sceneGlass` scenario: origin, looking at the sun
through the sphere. -/
def rayGlass : Ray := ⟨⟨0, 0, 0⟩, ⟨0, 0, 1⟩⟩

/-- The first intersection of `rayGlass` with `sceneGlass`: front of the
sphere at distance 1, entering. -/
def iGlass : Intersect :=
  { pos := ⟨0, 0, 1⟩
    normal := ⟨0, 0, -1⟩
    prop := propGlass
    distance := 1
    is_entry := true }

/-- RNG whose first uniform draw is `0.9` (> opacity: primary sample
refracts) and all later draws are `0.1` (≤ opacity: extra samples reflect);
every random unit vector is `(0,0,-1)`. -/
def rngGlass : Rng := ⟨fun n => if n = 0 then 9 / 10 else 1 / 10, fun _ => ⟨0, 0, -1⟩⟩

/-- Tracer configuration with `reflect_samples = 2` and `refract_samples = 5`
(the default bounce budgets). -/
def tracerC3 : Tracer := ⟨8, 8, 90, 2, 5⟩

/-- Fully opaque white material (opacity 1, roughness 0). -/
def propOpaque : PhysProp := ⟨1, 1, 0, ⟨1, 1, 1⟩, ⟨0, 0, 0⟩⟩

/-- Unit sphere of `propOpaque` centered at `(0,0,2)`. -/
def sphereC2 : Sphere := ⟨Transform.identity.set_pos ⟨0, 0, 2⟩, 1, propOpaque⟩

/-- Scene holding only `sphereC2`, with a black environment. -/
def sceneC2 : Scene :=
  { objects := [Obj.sphere sphereC2]
    ground_color := ⟨0, 0, 0⟩
    horizon_color := ⟨0, 0, 0⟩
    skybox_color := ⟨0, 0, 0⟩
    sun_color := ⟨0, 0, 0⟩
    sun_direction := ⟨0, 0, 0⟩
    sun_radius := 1 }

/-- A ray starting on `sphereC2` itself (origin `(0,0,1)`, squared distance to
the center exactly `radius²`) with the short direction `(0,0,1e-5)`, producing
the tangent-branch hit with `is_entry = false`. -/
def rayC2 : Ray := ⟨⟨0, 0, 1⟩, ⟨0, 0, 1 / 100000⟩⟩

/-- The intersection `sphereC2.intersect rayC2` evaluates to: tangent-branch
hit at distance `1e-5`, not an entry (the ray starts on the surface, not
outside). -/
def iC2 : Intersect :=
  { pos := ⟨0, 0, 1 + 1 / 10000000000⟩
    normal := ⟨0, 0, -1 + 1 / 10000000000⟩
    prop := propOpaque
    distance := 1 / 100000
    is_entry := false }

/-- RNG whose next uniform draw is `0.3` (≤ `propOpaque`'s opacity 1). -/
def rngC2 : Rng := ⟨fun _ => 3 / 10, fun _ => ⟨0, 0, -1⟩⟩

/-- The all-black initial display target. -/
def target0 : Target := fun _ => ⟨0, 0, 0⟩

/-- A `SmoothingFramebuffer` state whose `u16` frame counter already holds the
maximum representable value `65535`. -/
def fbC4 : SmoothingFramebuffer := { buffer := [⟨0, 0, 0⟩], frame := 65535, width := 1, height := 1 }

/-- Pixel-value function for the interlacing witness: encodes the pixel
coordinates in the color so that every pixel is distinguishable. -/
def renderXY : ℕ → ℕ → Vec3 := fun x y => ⟨(x : ℝ), (y : ℝ), 0⟩

/-- A concrete 2-interlaced partial framebuffer (width 2, height 1, worker 0
of 2) holding one slot. -/
def fbC10 : PartialFramebuffer := ⟨[⟨1, 2, 3⟩], 2, 1, 2, 0⟩

/-- `Tracer::default()`. -/
def tracerDefault : Tracer := ⟨8, 8, 90, 4, 4⟩

/-- The pixels of a `width × height` frame in row-major order (the order of
the nested loops of `trace_partial_image`). -/
def pixelList (width height : ℕ) : List (ℕ × ℕ) :=
  (List.range height).flatMap fun y => (List.range width).map fun x => (x, y)

/-- The effect of a worker's render pass on its compact data buffer, as a fold
over the linear pixel indices below `M` (proof infrastructure: `M = w*h`
reproduces `trace_partial_image`'s writes for the worker `(N, i)`). -/
def partialDataFold (render : ℕ → ℕ → Vec3) (w N i : ℕ) (M : ℕ) (d : List Vec3) : List Vec3 :=
  (List.range M).foldl
    (fun d l => if l % N = i then d.set (l / N) (render (l % w) (l / w)) else d) d

end

@[simp] theorem Vec3.add_def (a b : Vec3) : a + b = ⟨a.x + b.x, a.y + b.y, a.z + b.z⟩ := rfl

@[simp] theorem Vec3.sub_def (a b : Vec3) : a - b = ⟨a.x - b.x, a.y - b.y, a.z - b.z⟩ := rfl

@[simp] theorem Vec3.mul_def (a b : Vec3) : a * b = ⟨a.x * b.x, a.y * b.y, a.z * b.z⟩ := rfl

@[simp] theorem Vec3.div_def (a b : Vec3) : a / b = ⟨a.x / b.x, a.y / b.y, a.z / b.z⟩ := rfl

@[simp] theorem Vec3.neg_def (a : Vec3) : -a = ⟨-a.x, -a.y, -a.z⟩ := rfl

@[simp] theorem Vec3.smul_def (a : Vec3) (r : ℝ) : a * r = ⟨a.x * r, a.y * r, a.z * r⟩ := rfl

@[simp] theorem Vec3.sdiv_def (a : Vec3) (r : ℝ) : a / r = ⟨a.x / r, a.y / r, a.z / r⟩ := rfl

@[simp] theorem Vec3.dot_def (a b : Vec3) : a.dot b = a.x * b.x + a.y * b.y + a.z * b.z := rfl

@[simp] theorem Vec3.sqr_magnitude_def (a : Vec3) :
    a.sqr_magnitude = a.x * a.x + a.y * a.y + a.z * a.z := rfl

@[simp] theorem Matrix3.vecMul_identity (v : Vec3) : Matrix3.vecMul v Matrix3.identity = v := by
  simp [Matrix3.vecMul, Matrix3.identity]

@[simp] theorem Transform.idpos_world_to_local (p q : Vec3) :
    (Transform.identity.set_pos p).world_to_local q = ⟨q.x - p.x, q.y - p.y, q.z - p.z⟩ := by
  simp [Transform.world_to_local, Transform.identity, Transform.set_pos]

@[simp] theorem Transform.idpos_local_to_world (p q : Vec3) :
    (Transform.identity.set_pos p).local_to_world q = ⟨q.x + p.x, q.y + p.y, q.z + p.z⟩ := by
  simp [Transform.local_to_world, Transform.identity, Transform.set_pos]

@[simp] theorem Transform.idpos_normal_local_to_world (p q : Vec3) :
    (Transform.identity.set_pos p).normal_local_to_world q = q := by
  simp [Transform.normal_local_to_world, Transform.identity, Transform.set_pos]

@[simp] theorem Transform.idpos_ray_world_to_local (p : Vec3) (r : Ray) :
    (Transform.identity.set_pos p).ray_world_to_local r =
      ⟨⟨r.pos.x - p.x, r.pos.y - p.y, r.pos.z - p.z⟩, r.normal⟩ := by
  simp [Transform.ray_world_to_local, Transform.world_to_local, Transform.normal_world_to_local,
    Transform.identity, Transform.set_pos]

/-- C4, counterexample.  The claim says a further `update` call at the
counter's maximum `65535` leaves it at `65535`; the code increments the `u16`
with wrap-around, so the counter becomes `0` (a Rust debug build would panic
instead of wrapping — either way it does not stay at the maximum). -/
theorem c4_counterexample :
    (fbC4.update target0).1.frame = 0 ∧ ¬(fbC4.update target0).1.frame = 65535 := by
  constructor <;> simp [fbC4, SmoothingFramebuffer.update]

/-- C4, amended.  `SmoothingFramebuffer::update` does not saturate: it always
increments the frame counter with `u16` wrap-around semantics
(`(frame + 1) % 2^16`, so `65535` wraps to `0`), leaving the accumulation
buffer itself untouched; the freeze at the maximum is implemented by the
driver in `main.rs`, which stops calling `update` once `get_frame()` reaches
`u16::MAX`. -/
theorem c4_amended : ∀ (fb : SmoothingFramebuffer) (t : Target),
    (fb.update t).1.frame = (fb.frame + 1) % 65536 ∧ (fb.update t).1.buffer = fb.buffer := by
  intro fb t
  exact ⟨rfl, rfl⟩

/-- C9.  The bounds assertions of `SmoothingFramebuffer::set_pixel` test
`x <= width` and `y <= height`; they therefore accept `x = width`,
`y = height - 1`, whose linear index `y*width + x` equals `width*height`,
at (hence beyond) the end of the allocated buffer; the index is in bounds
for every `x < width`, `y < height`. -/
theorem c9_assert_bounds : ∀ w h : ℕ, 1 ≤ w → 1 ≤ h →
    ((SmoothingFramebuffer.new w h).setPixelAsserts w (h - 1) ∧
      (SmoothingFramebuffer.new w h).buffer.length ≤
        (SmoothingFramebuffer.new w h).pixelIndex w (h - 1)) ∧
    ∀ x y : ℕ, x < w → y < h →
      (SmoothingFramebuffer.new w h).pixelIndex x y < (SmoothingFramebuffer.new w h).buffer.length := by
  intro w h hw hh
  have hlen : (SmoothingFramebuffer.new w h).buffer.length = w * h := by
    simp [SmoothingFramebuffer.new]
  refine ⟨⟨⟨le_refl _, Nat.sub_le _ _⟩, ?_⟩, ?_⟩
  · have : (SmoothingFramebuffer.new w h).pixelIndex w (h - 1) = (h - 1) * w + w := rfl
    rw [this, hlen]
    have h1 : (h - 1) * w + w = ((h - 1) + 1) * w := (Nat.succ_mul (h - 1) w).symm
    rw [h1, Nat.sub_add_cancel hh, Nat.mul_comm]
  · intro x y hx hy
    have : (SmoothingFramebuffer.new w h).pixelIndex x y = y * w + x := rfl
    rw [this, hlen]
    calc y * w + x < y * w + w := by omega
    _ = (y + 1) * w := (Nat.succ_mul y w).symm
    _ ≤ h * w := Nat.mul_le_mul_right w hy
    _ = w * h := Nat.mul_comm h w

/-- C9, witness at a concrete 2×2 buffer: the assertions accept `(2, 1)`
whose index `4` is out of bounds, while the in-bounds guarantee applies at
`(1, 1)`. -/
theorem c9_assert_bounds_witness :
    ((SmoothingFramebuffer.new 2 2).setPixelAsserts 2 1 ∧
      (SmoothingFramebuffer.new 2 2).buffer.length ≤ (SmoothingFramebuffer.new 2 2).pixelIndex 2 1) ∧
    (SmoothingFramebuffer.new 2 2).pixelIndex 1 1 < (SmoothingFramebuffer.new 2 2).buffer.length := by
  refine ⟨?_, ?_⟩
  · exact (c9_assert_bounds 2 2 (by norm_num) (by norm_num)).1
  · exact (c9_assert_bounds 2 2 (by norm_num) (by norm_num)).2 1 1 (by norm_num) (by norm_num)

/-- C10.  `PartialFramebuffer::set_pixel` ignores any pixel whose linear
index is not congruent to the interlace offset modulo the interlace count
(the buffer is returned unchanged); for an owned pixel it stores `col` at
slot `(x + y*width) / interlace_count` and leaves every other stored entry
unchanged. -/
theorem c10_set_pixel_owned : ∀ (fb : PartialFramebuffer) (x y : ℕ) (col : Vec3),
    ((x + y * fb.width) % fb.interlace_count ≠ fb.interlace_offset →
      fb.set_pixel x y col = fb) ∧
    ((x + y * fb.width) % fb.interlace_count = fb.interlace_offset →
      (fb.set_pixel x y col).data =
        fb.data.set ((x + y * fb.width) / fb.interlace_count) col ∧
      ∀ j, j ≠ (x + y * fb.width) / fb.interlace_count →
        (fb.set_pixel x y col).data.get? j = fb.data.get? j) := by
  intro fb x y col
  constructor
  · intro h
    simp [PartialFramebuffer.set_pixel, h]
  · intro h
    constructor
    · simp [PartialFramebuffer.set_pixel, h]
    · intro j hj
      simp [PartialFramebuffer.set_pixel, h, List.getElem?_set_ne (Ne.symm hj)]

/-- C10, witness on `fbC10` (2 pixels, 2 workers, offset 0): pixel `(1,0)` is
not owned and the write is dropped; pixel `(0,0)` is owned, is stored at slot
0, and slot 1 is untouched. -/
theorem c10_set_pixel_owned_witness :
    fbC10.set_pixel 1 0 ⟨5, 5, 5⟩ = fbC10 ∧
    (fbC10.set_pixel 0 0 ⟨5, 5, 5⟩).data = fbC10.data.set 0 ⟨5, 5, 5⟩ ∧
    (fbC10.set_pixel 0 0 ⟨5, 5, 5⟩).data.get? 1 = fbC10.data.get? 1 := by
  refine ⟨?_, ?_, ?_⟩
  · exact (c10_set_pixel_owned fbC10 1 0 ⟨5, 5, 5⟩).1 (by norm_num [fbC10])
  · exact ((c10_set_pixel_owned fbC10 0 0 ⟨5, 5, 5⟩).2 (by norm_num [fbC10])).1
  · exact ((c10_set_pixel_owned fbC10 0 0 ⟨5, 5, 5⟩).2 (by norm_num [fbC10])).2 1 (by norm_num)

theorem foldl_targetSet_row (φ : ℕ → ℕ → Vec3) (w y₀ : ℕ) (t : Target) (p : ℕ × ℕ) :
    ((List.range w).foldl (fun t x => targetSet t x y₀ (φ x y₀)) t) p =
      if p.1 < w ∧ p.2 = y₀ then φ p.1 y₀ else t p := by
  induction w generalizing t with
  | zero => simp
  | succ w ih =>
    rw [List.range_succ, List.foldl_append]
    simp only [List.foldl_cons, List.foldl_nil]
    by_cases hp : p = (w, y₀)
    · subst hp
      simp [targetSet]
    · have h1 : targetSet ((List.range w).foldl (fun t x => targetSet t x y₀ (φ x y₀)) t) w y₀
          (φ w y₀) p = ((List.range w).foldl (fun t x => targetSet t x y₀ (φ x y₀)) t) p := by
        simp [targetSet, hp]
      rw [h1, ih]
      have h2 : (p.1 < w ∧ p.2 = y₀) ↔ (p.1 < w + 1 ∧ p.2 = y₀) := by
        constructor
        · exact fun h => ⟨Nat.lt_succ_of_lt h.1, h.2⟩
        · rintro ⟨h3, h4⟩
          refine ⟨?_, h4⟩
          rcases Nat.lt_succ_iff_lt_or_eq.mp h3 with h5 | h5
          · exact h5
          · exact absurd (Prod.ext h5 h4) hp
      rw [if_congr h2 rfl rfl]

theorem foldl_targetSet_grid (φ : ℕ → ℕ → Vec3) (w h : ℕ) (t : Target) (p : ℕ × ℕ) :
    ((List.range h).foldl
        (fun t y => (List.range w).foldl (fun t x => targetSet t x y (φ x y)) t) t) p =
      if p.1 < w ∧ p.2 < h then φ p.1 p.2 else t p := by
  induction h generalizing t with
  | zero => simp
  | succ h ih =>
    rw [List.range_succ, List.foldl_append]
    simp only [List.foldl_cons, List.foldl_nil]
    rw [foldl_targetSet_row, ih]
    by_cases hp : p.1 < w ∧ p.2 = h
    · rw [if_pos hp, if_pos (show p.1 < w ∧ p.2 < h + 1 from ⟨hp.1, by omega⟩), hp.2]
    · rw [if_neg hp]
      by_cases hq : p.1 < w ∧ p.2 < h
      · rw [if_pos hq, if_pos ⟨hq.1, Nat.lt_succ_of_lt hq.2⟩]
      · rw [if_neg hq, if_neg]
        rintro ⟨h1, h2⟩
        rcases Nat.lt_succ_iff_lt_or_eq.mp h2 with h3 | h3
        · exact hq ⟨h1, h3⟩
        · exact hp ⟨h1, h3⟩

/-- The value `SmoothingFramebuffer::update` writes to the output at an
in-bounds pixel: the running sum scaled by `1 / frame` (with the incremented,
wrapped counter). -/
theorem update_display (fb : SmoothingFramebuffer) (t : Target) (x y : ℕ)
    (hx : x < fb.width) (hy : y < fb.height) :
    (fb.update t).2 (x, y) =
      fb.buffer.getD (y * fb.width + x) ⟨0, 0, 0⟩ *
        ((1 : ℝ) / (((fb.frame + 1) % 65536 : ℕ) : ℝ)) := by
  show ((List.range fb.height).foldl _ t) (x, y) = _
  rw [foldl_targetSet_grid (fun x y =>
    fb.buffer.getD (y * fb.width + x) ⟨0, 0, 0⟩ * ((1 : ℝ) / (((fb.frame + 1) % 65536 : ℕ) : ℝ)))]
  simp [hx, hy]

theorem list_getD_set_self {α : Type} (l : List α) (i : ℕ) (a d : α) (h : i < l.length) :
    (l.set i a).getD i d = a := by
  simp [List.getD, List.getElem?_set_eq_of_lt a h]

theorem list_getD_replicate {α : Type} (n i : ℕ) (a d : α) (h : i < n) :
    (List.replicate n a).getD i d = a := by
  simp [List.getD, List.getElem?_replicate, h]

/-- State invariant of `k` constant-contribution frames: counter `k % 2^16`,
dimensions preserved, running sum `c * k` at the written pixel. -/
theorem accumulate_state (c : Vec3) (x y w h : ℕ) (hx : x < w) (hy : y < h) (k : ℕ) :
    (accumulateFrames c x y (SmoothingFramebuffer.new w h, target0) k).1.frame = k % 65536 ∧
    (accumulateFrames c x y (SmoothingFramebuffer.new w h, target0) k).1.width = w ∧
    (accumulateFrames c x y (SmoothingFramebuffer.new w h, target0) k).1.height = h ∧
    (accumulateFrames c x y (SmoothingFramebuffer.new w h, target0) k).1.buffer.length = w * h ∧
    (accumulateFrames c x y (SmoothingFramebuffer.new w h, target0) k).1.buffer.getD
        (y * w + x) ⟨0, 0, 0⟩ = c * (k : ℝ) := by
  have hidx : y * w + x < w * h := by
    calc y * w + x < y * w + w := by omega
    _ = (y + 1) * w := (Nat.succ_mul y w).symm
    _ ≤ h * w := Nat.mul_le_mul_right w hy
    _ = w * h := Nat.mul_comm h w
  induction k with
  | zero =>
    refine ⟨rfl, rfl, rfl, ?_, ?_⟩
    · simp [accumulateFrames, SmoothingFramebuffer.new]
    · show (List.replicate (w * h) (⟨0, 0, 0⟩ : Vec3)).getD (y * w + x) ⟨0, 0, 0⟩ = c * ((0 : ℕ) : ℝ)
      rw [list_getD_replicate _ _ _ _ hidx]
      cases c with
      | mk cx cy cz => simp
  | succ k ih =>
    obtain ⟨hf, hw, hh, hl, hb⟩ := ih
    refine ⟨?_, ?_, ?_, ?_, ?_⟩
    · show ((_ : SmoothingFramebuffer × Target).1.frame) = _
      simp only [accumulateFrames, accumulateFrame, SmoothingFramebuffer.update,
        SmoothingFramebuffer.set_pixel]
      simp only [hf]
      omega
    · simp only [accumulateFrames, accumulateFrame, SmoothingFramebuffer.update,
        SmoothingFramebuffer.set_pixel]
      exact hw
    · simp only [accumulateFrames, accumulateFrame, SmoothingFramebuffer.update,
        SmoothingFramebuffer.set_pixel]
      exact hh
    · simp only [accumulateFrames, accumulateFrame, SmoothingFramebuffer.update,
        SmoothingFramebuffer.set_pixel, List.length_set]
      exact hl
    · simp only [accumulateFrames, accumulateFrame, SmoothingFramebuffer.update,
        SmoothingFramebuffer.set_pixel, SmoothingFramebuffer.pixelIndex]
      rw [hw]
      have hlt : y * w + x < ((accumulateFrames c x y (SmoothingFramebuffer.new w h, target0)
          k).1.buffer).length := by rw [hl]; exact hidx
      rw [list_getD_set_self _ _ _ _ hlt, hb]
      cases c with
      | mk cx cy cz =>
        simp only [Vec3.smul_def, Vec3.add_def, Vec3.mk.injEq]
        push_cast
        refine ⟨by ring, by ring, by ring⟩

theorem accumulateFrames_succ (c : Vec3) (x y : ℕ) (st : SmoothingFramebuffer × Target) (k : ℕ) :
    accumulateFrames c x y st (k + 1) = accumulateFrame c x y (accumulateFrames c x y st k) := rfl

theorem set_pixel_width (fb : SmoothingFramebuffer) (a b : ℕ) (c : Vec3) :
    (fb.set_pixel a b c).width = fb.width := rfl

theorem set_pixel_height (fb : SmoothingFramebuffer) (a b : ℕ) (c : Vec3) :
    (fb.set_pixel a b c).height = fb.height := rfl

theorem set_pixel_frame (fb : SmoothingFramebuffer) (a b : ℕ) (c : Vec3) :
    (fb.set_pixel a b c).frame = fb.frame := rfl

theorem accumulateFrame_eq (c : Vec3) (x y : ℕ) (st : SmoothingFramebuffer × Target) :
    accumulateFrame c x y st = (st.1.set_pixel x y c).update st.2 := rfl

set_option maxRecDepth 8000

/-- C8, counterexample.  The claim asserts the displayed value is `c` after
`k` constant-`c` frames for *every* `k ≥ 1`; at `k = 65536` the `u16` frame
counter has wrapped to `0`, so `update` divides by zero and the displayed
value is not `c` (in the embedding `x * (1/0) = 0`; a Rust release build
produces infinity — under either convention the displayed value differs from
`c = (1,1,1)`). -/
theorem c8_counterexample :
    (accumulateFrames ⟨1, 1, 1⟩ 0 0 (SmoothingFramebuffer.new 1 1, target0) 65536).2 (0, 0) ≠
      ⟨1, 1, 1⟩ := by
  obtain ⟨hf, hw, hh, hl, hb⟩ :=
    accumulate_state ⟨1, 1, 1⟩ 0 0 1 1 (by norm_num) (by norm_num) 65535
  rw [show (65536 : ℕ) = 65535 + 1 by norm_num, accumulateFrames_succ, accumulateFrame_eq]
  rw [update_display _ _ 0 0 (by rw [set_pixel_width, hw]; norm_num)
    (by rw [set_pixel_height, hh]; norm_num)]
  rw [set_pixel_frame, hf]
  rw [show ((((65535 % 65536 + 1) % 65536 : ℕ)) : ℝ) = 0 by norm_num]
  have hmul : ∀ v : Vec3, v * ((1 : ℝ) / 0) = ⟨0, 0, 0⟩ := by
    intro v
    cases v
    simp
  rw [hmul]
  norm_num [Vec3.mk.injEq]

/-- C8, amended.  The displayed value after a call to `update` equals the
per-pixel running sum divided by the (incremented, `u16`-wrapped) frame
counter; consequently after `k` frames each contributing the identical value
`c` the displayed value is `c` for every `1 ≤ k ≤ 65535` (at `k = 65536` the
counter wraps and the property fails, see the counterexample); in particular
contributions `(1,1,1)` on frame 1 and `(3,3,3)` on frame 2 display `(2,2,2)`
after frame 2. -/
theorem c8_amended :
    (∀ (fb : SmoothingFramebuffer) (t : Target) (x y : ℕ), x < fb.width → y < fb.height →
      (fb.update t).2 (x, y) =
        fb.buffer.getD (y * fb.width + x) ⟨0, 0, 0⟩ / (((fb.frame + 1) % 65536 : ℕ) : ℝ)) ∧
    (∀ (w h x y : ℕ) (c : Vec3) (k : ℕ), x < w → y < h → 1 ≤ k → k ≤ 65535 →
      (accumulateFrames c x y (SmoothingFramebuffer.new w h, target0) k).2 (x, y) = c) ∧
    (accumulateFrames ⟨1, 1, 1⟩ 0 0 (SmoothingFramebuffer.new 1 1, target0) 1
      |> accumulateFrame ⟨3, 3, 3⟩ 0 0).2 (0, 0) = ⟨2, 2, 2⟩ := by
  refine ⟨?_, ?_, ?_⟩
  · intro fb t x y hx hy
    rw [update_display fb t x y hx hy]
    cases fb.buffer.getD (y * fb.width + x) ⟨0, 0, 0⟩ with
    | mk vx vy vz => simp [div_eq_mul_inv]
  · intro w h x y c k hx hy hk1 hk2
    obtain ⟨hf, hw, hh, hl, hb⟩ := accumulate_state c x y w h hx hy (k - 1)
    rw [show k = (k - 1) + 1 by omega, accumulateFrames_succ, accumulateFrame_eq]
    rw [update_display _ _ x y (by rw [set_pixel_width, hw]; exact hx)
      (by rw [set_pixel_height, hh]; exact hy)]
    rw [set_pixel_frame, hf]
    have hfr : (((k - 1) % 65536 + 1) % 65536 : ℕ) = k := by omega
    rw [hfr]
    have hbuf : ((accumulateFrames c x y (SmoothingFramebuffer.new w h, target0)
        (k - 1)).1.set_pixel x y c).buffer.getD
          (y * ((accumulateFrames c x y (SmoothingFramebuffer.new w h, target0)
            (k - 1)).1.set_pixel x y c).width + x) ⟨0, 0, 0⟩ = c * ((k - 1 : ℕ) : ℝ) + c := by
      rw [set_pixel_width, hw]
      have hlt : y * w + x < ((accumulateFrames c x y (SmoothingFramebuffer.new w h, target0)
          (k - 1)).1.buffer).length := by
        rw [hl]
        calc y * w + x < y * w + w := by omega
        _ = (y + 1) * w := (Nat.succ_mul y w).symm
        _ ≤ h * w := Nat.mul_le_mul_right w hy
        _ = w * h := Nat.mul_comm h w
      have hpi : (accumulateFrames c x y (SmoothingFramebuffer.new w h, target0)
          (k - 1)).1.pixelIndex x y = y * w + x := by
        show y * (accumulateFrames c x y (SmoothingFramebuffer.new w h, target0)
          (k - 1)).1.width + x = _
        rw [hw]
      show ((accumulateFrames c x y (SmoothingFramebuffer.new w h, target0)
        (k - 1)).1.buffer.set ((accumulateFrames c x y (SmoothingFramebuffer.new w h, target0)
          (k - 1)).1.pixelIndex x y) _).getD (y * w + x) ⟨0, 0, 0⟩ = _
      rw [hpi, list_getD_set_self _ _ _ _ hlt, hb]
    rw [hbuf]
    have hkne : ((k : ℕ) : ℝ) ≠ 0 := by
      simp only [ne_eq, Nat.cast_eq_zero]
      omega
    have hcast : ((k - 1 : ℕ) : ℝ) = (k : ℝ) - 1 := by
      push_cast [Nat.cast_sub (by omega : 1 ≤ k)]
      ring
    cases c with
    | mk cx cy cz =>
      simp only [Vec3.smul_def, Vec3.add_def, Vec3.mk.injEq, hcast]
      refine ⟨?_, ?_, ?_⟩ <;> field_simp <;> ring
  · rw [show accumulateFrames (⟨1, 1, 1⟩ : Vec3) 0 0 (SmoothingFramebuffer.new 1 1, target0) 1 =
      accumulateFrame ⟨1, 1, 1⟩ 0 0 (SmoothingFramebuffer.new 1 1, target0) from rfl]
    have e1 : ((accumulateFrame (⟨1, 1, 1⟩ : Vec3) 0 0
        (SmoothingFramebuffer.new 1 1, target0)).1.set_pixel 0 0 ⟨3, 3, 3⟩) =
        { buffer := [⟨4, 4, 4⟩], frame := 1, width := 1, height := 1 } := by
      simp [accumulateFrame, SmoothingFramebuffer.update, SmoothingFramebuffer.set_pixel,
        SmoothingFramebuffer.new, SmoothingFramebuffer.pixelIndex, List.getD]
      norm_num
    rw [accumulateFrame_eq, e1]
    rw [update_display _ _ 0 0 (by norm_num) (by norm_num)]
    norm_num [List.getD]

/-- C8, witness: two constant frames of `(1,1,1)` on a 1×1 buffer display
`(1,1,1)` (the theorem's hypotheses discharged at `w = h = 1`, pixel `(0,0)`,
`k = 2`). -/
theorem c8_amended_witness :
    (accumulateFrames ⟨1, 1, 1⟩ 0 0 (SmoothingFramebuffer.new 1 1, target0) 2).2 (0, 0) =
      ⟨1, 1, 1⟩ :=
  c8_amended.2.1 1 1 0 0 ⟨1, 1, 1⟩ 2 (by norm_num) (by norm_num) (by norm_num) (by norm_num)

theorem sqrt_four : Real.sqrt (4 : ℝ) = 2 := by
  rw [show (4 : ℝ) = 2 ^ 2 by norm_num]
  exact Real.sqrt_sq (by norm_num)

theorem get_intersection_singleton (s : Scene) (o : Obj) (ray : Ray) (h : s.objects = [o]) :
    Tracer.get_intersection s ray = o.intersect ray := by
  rw [Tracer.get_intersection, h]
  simp only [List.foldl_cons, List.foldl_nil]
  cases o.intersect ray <;> rfl

/-- Evaluation: the C1 ray (origin at the sphere center) produces `a = 0`,
`b = 1/4`, roots `±1/2`; the code's `dist0 < dist1` guard is never true and
`dist1 = -1/2` fails the epsilon test, so no hit is reported. -/
theorem sphereC1_eval : sphereC1.intersect rayC1 = none := by
  rw [Sphere.intersect]
  simp only [sphereC1, rayC1, propRed, Transform.idpos_ray_world_to_local, Vec3.dot_def,
    Vec3.sqr_magnitude_def]
  norm_num [sqrt_four]

/-- Evaluation: `rayGlass` hits `sphereGlass` entering at distance 1
(`a = 2`, `b = 1`, `dist1 = 1`). -/
theorem sphereGlass_eval : sphereGlass.intersect rayGlass = some iGlass := by
  rw [Sphere.intersect]
  simp only [sphereGlass, rayGlass, propGlass, Transform.idpos_ray_world_to_local, Vec3.dot_def,
    Vec3.sqr_magnitude_def]
  norm_num [Real.sqrt_one, Sphere.hit, iGlass, Transform.idpos_local_to_world,
    Transform.idpos_normal_local_to_world, Intersect.mk.injEq, Vec3.mk.injEq, propGlass,
    decide_eq_true_eq]

/-- Evaluation: from `(0,0,1)` (on the front surface, inside relative to the
direction) straight ahead there is no reported hit: `a = 1`, `b = 1`, the
smaller root is `0` (fails the epsilon test) and the dead `dist0 < dist1`
fallback never fires — the exit hit is lost. -/
theorem sphereGlass_exit_eval :
    sphereGlass.intersect ⟨⟨0, 0, 1⟩, ⟨0, 0, 1⟩⟩ = none := by
  rw [Sphere.intersect]
  simp only [sphereGlass, propGlass, Transform.idpos_ray_world_to_local, Vec3.dot_def,
    Vec3.sqr_magnitude_def]
  norm_num [Real.sqrt_one]

/-- Evaluation: from `(0,0,1)` looking back, both roots are `≤ 0`
(`a = -1`, `b = 1`), no hit. -/
theorem sphereGlass_back_eval :
    sphereGlass.intersect ⟨⟨0, 0, 1⟩, ⟨0, 0, -1⟩⟩ = none := by
  rw [Sphere.intersect]
  simp only [sphereGlass, propGlass, Transform.idpos_ray_world_to_local, Vec3.dot_def,
    Vec3.sqr_magnitude_def]
  norm_num [Real.sqrt_one]

/-- Evaluation: the tangent-branch hit of claim C2: `rayC2` starts on the
sphere (`|pos|² = radius²`) with the short direction `(0,0,1e-5)`, giving
`a = 1e-5`, `b = 1e-10 < 1e-8`, a hit at distance `1e-5`, and
`is_entry = false`. -/
theorem sphereC2_eval : sphereC2.intersect rayC2 = some iC2 := by
  rw [Sphere.intersect]
  simp only [sphereC2, rayC2, propOpaque, Transform.idpos_ray_world_to_local, Vec3.dot_def,
    Vec3.sqr_magnitude_def]
  norm_num [Sphere.hit, iC2, Transform.idpos_local_to_world,
    Transform.idpos_normal_local_to_world, Intersect.mk.injEq, Vec3.mk.injEq, propOpaque,
    decide_eq_true_eq]

theorem get_intersection_glass :
    Tracer.get_intersection sceneGlass rayGlass = some iGlass := by
  rw [get_intersection_singleton sceneGlass (Obj.sphere sphereGlass) rayGlass rfl]
  exact sphereGlass_eval

theorem get_intersection_glass_exit :
    Tracer.get_intersection sceneGlass ⟨⟨0, 0, 1⟩, ⟨0, 0, 1⟩⟩ = none := by
  rw [get_intersection_singleton sceneGlass (Obj.sphere sphereGlass) _ rfl]
  exact sphereGlass_exit_eval

theorem get_intersection_glass_back :
    Tracer.get_intersection sceneGlass ⟨⟨0, 0, 1⟩, ⟨0, 0, -1⟩⟩ = none := by
  rw [get_intersection_singleton sceneGlass (Obj.sphere sphereGlass) _ rfl]
  exact sphereGlass_back_eval

theorem get_intersection_C2 : Tracer.get_intersection sceneC2 rayC2 = some iC2 := by
  rw [get_intersection_singleton sceneC2 (Obj.sphere sphereC2) rayC2 rfl]
  exact sphereC2_eval

/-- C1 (code-bug evidence).  At the claim's own input — ray origin `(0,0,2)`
and direction `(0,0,1)` against the sphere centered `(0,0,2)` with radius
`0.5` — `Sphere::intersect` returns no hit at all, not a hit at distance
`0.5`: the roots are `±1/2` and the fallback to the larger root can never be
taken because its guard `dist0 < dist1`, i.e. `a + √b < a - √b`, is false for
every `a` and `b` (second conjunct), so a ray starting inside a sphere never
hits it. -/
theorem c1_inside_ray_misses :
    sphereC1.intersect rayC1 = none ∧ ∀ a b : ℝ, ¬(a + Real.sqrt b < a - Real.sqrt b) := by
  refine ⟨sphereC1_eval, ?_⟩
  intro a b h
  have h1 := Real.sqrt_nonneg b
  linarith

theorem sphere_intersect_distance (s : Sphere) (ray : Ray) (i : Intersect)
    (h : s.intersect ray = some i) : i.distance > 0.00000001 := by
  rw [Sphere.intersect] at h
  split_ifs at h with h1 h2 h3 h4 h5
  all_goals (have hEq := Option.some.inj h; rw [← hEq])
  all_goals first
    | exact h3
    | exact h4.2
    | exact h5

theorem plane_intersect_distance (p : Plane) (ray : Ray) (i : Intersect)
    (h : p.intersect ray = some i) : i.distance > 0.00000001 := by
  rw [Plane.intersect] at h
  split_ifs at h with h1 h2 h3
  have hEq := Option.some.inj h
  rw [← hEq]
  exact lt_of_not_le h2

/-- C7.  Every intersection reported by `Sphere::intersect` or
`Plane::intersect` carries a distance strictly greater than `1e-8`: each
accepting branch of both routines is guarded by exactly that epsilon test. -/
theorem c7_distance_above_epsilon :
    (∀ (s : Sphere) (ray : Ray) (i : Intersect), s.intersect ray = some i →
      i.distance > 0.00000001) ∧
    (∀ (p : Plane) (ray : Ray) (i : Intersect), p.intersect ray = some i →
      i.distance > 0.00000001) :=
  ⟨sphere_intersect_distance, plane_intersect_distance⟩

/-- C7, witness: the concrete hit of `rayGlass` on `sphereGlass` at distance
`1 > 1e-8`. -/
theorem c7_distance_above_epsilon_witness :
    sphereGlass.intersect rayGlass = some iGlass ∧ iGlass.distance > 0.00000001 :=
  ⟨sphereGlass_eval, c7_distance_above_epsilon.1 sphereGlass rayGlass iGlass sphereGlass_eval⟩

theorem get_intersection_eq_argmin_aux (ray : Ray) : ∀ (l : List Obj) (acc : Option Intersect),
    l.foldl
      (fun out o =>
        match o.intersect ray with
        | none => out
        | some intersect =>
          match out with
          | none => some intersect
          | some cur => if cur.distance > intersect.distance then some intersect else out)
      acc =
    (l.filterMap fun o => o.intersect ray).foldl
      (List.argAux fun b c => Intersect.distance b < Intersect.distance c) acc := by
  intro l
  induction l with
  | nil => intro acc; rfl
  | cons o l ih =>
    intro acc
    cases hI : o.intersect ray with
    | none =>
      rw [List.foldl_cons]
      simp only [hI, List.filterMap_cons]
      exact ih acc
    | some j =>
      rw [List.foldl_cons]
      simp only [hI, List.filterMap_cons, List.foldl_cons]
      cases acc with
      | none => exact ih (some j)
      | some cur => exact ih _

/-- C6.  `get_intersection` is exactly `List.argmin` of the distance over the
intersections of the scene's primitives with the ray (so it returns the
globally minimal-distance intersection, `none` when no primitive intersects,
with the first-found primitive winning at equal distance — `argmin`'s
tie-breaking — and the result depends only on the list of successful
intersections, hence is unchanged by omitting or reordering primitives that
do not intersect); every returned distance is positive (greater than the
`1e-8` epsilon). -/
theorem c6_get_intersection_argmin (s : Scene) (ray : Ray) :
    Tracer.get_intersection s ray =
      (s.objects.filterMap fun o => o.intersect ray).argmin Intersect.distance ∧
    ∀ i, Tracer.get_intersection s ray = some i → i.distance > 0.00000001 := by
  have harg : Tracer.get_intersection s ray =
      (s.objects.filterMap fun o => o.intersect ray).argmin Intersect.distance := by
    rw [Tracer.get_intersection, List.argmin]
    exact get_intersection_eq_argmin_aux ray s.objects none
  refine ⟨harg, ?_⟩
  intro i h
  rw [harg] at h
  have hmem : i ∈ s.objects.filterMap fun o => o.intersect ray :=
    List.argmin_mem h
  obtain ⟨o, _, ho⟩ := List.mem_filterMap.mp hmem
  cases o with
  | sphere sp => exact sphere_intersect_distance sp ray i ho
  | plane pl => exact plane_intersect_distance pl ray i ho

/-- C6, witness: on the one-sphere scene `sceneGlass` the scan agrees with
`argmin` and the returned hit `iGlass` has positive distance. -/
theorem c6_get_intersection_argmin_witness :
    Tracer.get_intersection sceneGlass rayGlass =
      (sceneGlass.objects.filterMap fun o => o.intersect rayGlass).argmin Intersect.distance ∧
    iGlass.distance > 0.00000001 :=
  ⟨(c6_get_intersection_argmin sceneGlass rayGlass).1,
    (c6_get_intersection_argmin sceneGlass rayGlass).2 iGlass get_intersection_glass⟩

/-- One unfolding of the trace loop at a hit that survives the bounce budget:
the emission/mask updates happen, exactly one uniform value (`g.u 0`) is
consumed for the branch decision (both continuations run on the shifted
uniform stream `fun n => g.u (n + 1)`), and the refraction branch is taken
precisely when `branchIsRefraction` holds (the reflection branch additionally
consumes one unit vector for the hemisphere sample). -/
theorem traceLoop_step (t : Tracer) (s : Scene) (fuel : ℕ) (ray : Ray) (c m : Vec3)
    (dr df : Bool) (g : Rng) (i : Intersect)
    (hit : Tracer.get_intersection s ray = some i) (hfuel : fuel - 1 ≠ 0) :
    traceLoop t s fuel ray c m dr df g =
      if branchIsRefraction i (g.u 0) then
        traceLoop t s (fuel - 1) (refractRay ray i) (c + m * i.prop.emission)
          (m * i.prop.color) true df ⟨fun n => g.u (n + 1), g.v⟩
      else
        traceLoop t s (fuel - 1) (reflectRay ray i ((g.hemisphereVec i.normal).1))
          (c + m * i.prop.emission) (m * i.prop.color) true df
          ⟨fun n => g.u (n + 1), fun n => g.v (n + 1)⟩ := by
  rw [traceLoop]
  rw [hit]
  simp only [dif_neg hfuel]
  rfl

/-- One unfolding of the trace loop at a miss: the sky/sun contribution is
added and the walk stops, leaving the flags untouched. -/
theorem traceLoop_miss (t : Tracer) (s : Scene) (fuel : ℕ) (ray : Ray) (c m : Vec3)
    (dr df : Bool) (g : Rng) (hit : Tracer.get_intersection s ray = none) :
    traceLoop t s fuel ray c m dr df g =
      ({ color := missColor s ray c m, did_reflect := dr, did_refract := df }, g) := by
  rw [traceLoop, hit]

/-- One unfolding of the trace loop at a hit that exhausts the bounce budget:
return immediately with `did_reflect` forced on. -/
theorem traceLoop_exhaust (t : Tracer) (s : Scene) (fuel : ℕ) (ray : Ray) (c m : Vec3)
    (dr df : Bool) (g : Rng) (i : Intersect)
    (hit : Tracer.get_intersection s ray = some i) (hfuel : fuel - 1 = 0) :
    traceLoop t s fuel ray c m dr df g =
      ({ color := c + m * i.prop.emission, did_reflect := true, did_refract := df }, g) := by
  rw [traceLoop, hit]
  simp only [dif_pos hfuel]

/-- The `did_refract` flag is never set by the loop: it comes out exactly as
it went in. -/
theorem traceLoop_did_refract (t : Tracer) (s : Scene) : ∀ (fuel : ℕ) (ray : Ray) (c m : Vec3)
    (dr df : Bool) (g : Rng), (traceLoop t s fuel ray c m dr df g).1.did_refract = df := by
  intro fuel
  induction fuel using Nat.strong_induction_on with
  | _ fuel ih =>
    intro ray c m dr df g
    cases hI : Tracer.get_intersection s ray with
    | none => rw [traceLoop_miss t s fuel ray c m dr df g hI]
    | some i =>
      by_cases hf : fuel - 1 = 0
      · rw [traceLoop_exhaust t s fuel ray c m dr df g i hI hf]
      · rw [traceLoop_step t s fuel ray c m dr df g i hI hf]
        have hlt : fuel - 1 < fuel := by omega
        by_cases hb : branchIsRefraction i (g.u 0)
        · rw [if_pos hb]
          exact ih (fuel - 1) hlt _ _ _ _ _ _
        · rw [if_neg hb]
          exact ih (fuel - 1) hlt _ _ _ _ _ _

/-- The `did_reflect` flag comes out set iff it went in set or the current
ray hits something (it is set on every hit, whichever branch follows). -/
theorem traceLoop_did_reflect (t : Tracer) (s : Scene) : ∀ (fuel : ℕ) (ray : Ray) (c m : Vec3)
    (dr df : Bool) (g : Rng),
    (traceLoop t s fuel ray c m dr df g).1.did_reflect =
      (dr || (Tracer.get_intersection s ray).isSome) := by
  intro fuel
  induction fuel using Nat.strong_induction_on with
  | _ fuel ih =>
    intro ray c m dr df g
    cases hI : Tracer.get_intersection s ray with
    | none => rw [traceLoop_miss t s fuel ray c m dr df g hI]; simp
    | some i =>
      by_cases hf : fuel - 1 = 0
      · rw [traceLoop_exhaust t s fuel ray c m dr df g i hI hf]; simp
      · rw [traceLoop_step t s fuel ray c m dr df g i hI hf]
        have hlt : fuel - 1 < fuel := by omega
        by_cases hb : branchIsRefraction i (g.u 0)
        · rw [if_pos hb, ih (fuel - 1) hlt _ _ _ _ _ _]
          simp
        · rw [if_neg hb, ih (fuel - 1) hlt _ _ _ _ _ _]
          simp

theorem trace_single_did_refract (t : Tracer) (s : Scene) (ray : Ray) (g : Rng) :
    (t.trace_single_ray s ray g).1.did_refract = false := by
  rw [Tracer.trace_single_ray]
  exact traceLoop_did_refract t s _ _ _ _ _ _ _

theorem trace_single_did_reflect (t : Tracer) (s : Scene) (ray : Ray) (g : Rng) :
    (t.trace_single_ray s ray g).1.did_reflect =
      (Tracer.get_intersection s ray).isSome := by
  rw [Tracer.trace_single_ray, traceLoop_did_reflect t s _ _ _ _ _ _ _]
  simp

/-- Refraction at a material of index 1 while exiting (`is_entry = false`):
the indices are `(ior, 1) = (1, 1)`, the ratio is 1 and the square root
collapses to `|dot|`. -/
theorem refractRay_exit_ior_one (ray : Ray) (i : Intersect) (hie : i.is_entry = false)
    (hior : i.prop.ior = 1) :
    refractRay ray i =
      ⟨i.pos, ray.normal + i.normal *
        (|ray.normal.dot i.normal| - ray.normal.dot i.normal)⟩ := by
  rw [refractRay]
  simp only [hie, hior, Bool.false_eq_true, if_false]
  have harg : (1 - 1 / 1 * (1 / 1) * (1 - ray.normal.dot i.normal * ray.normal.dot i.normal)
      : ℝ) = ray.normal.dot i.normal * ray.normal.dot i.normal := by ring
  rw [harg, Real.sqrt_mul_self_eq_abs]
  cases hrn : ray.normal with
  | mk nx ny nz =>
    cases hin : i.normal with
    | mk mx my mz =>
      simp only [Vec3.smul_def, Vec3.add_def, Ray.mk.injEq, Vec3.mk.injEq]
      refine ⟨trivial, ?_, ?_, ?_⟩ <;> ring

/-- Refraction at a material of index 1 while entering (`is_entry = true`):
the indices are `(1, ior) = (1, 1)` and the normal is flipped. -/
theorem refractRay_entry_ior_one (ray : Ray) (i : Intersect) (hie : i.is_entry = true)
    (hior : i.prop.ior = 1) :
    refractRay ray i =
      ⟨i.pos, ray.normal + (-i.normal) *
        (|ray.normal.dot (-i.normal)| - ray.normal.dot (-i.normal))⟩ := by
  rw [refractRay]
  simp only [hie, hior, if_true]
  have harg : (1 - 1 / 1 * (1 / 1) *
      (1 - ray.normal.dot (-i.normal) * ray.normal.dot (-i.normal)) : ℝ) =
      ray.normal.dot (-i.normal) * ray.normal.dot (-i.normal) := by ring
  rw [harg, Real.sqrt_mul_self_eq_abs]
  cases hrn : ray.normal with
  | mk nx ny nz =>
    cases hin : i.normal with
    | mk mx my mz =>
      simp only [Vec3.smul_def, Vec3.add_def, Vec3.neg_def, Ray.mk.injEq, Vec3.mk.injEq]
      refine ⟨trivial, ?_, ?_, ?_⟩ <;> ring

/-- Normalising a vector `(0, 0, z)` with negative `z` gives `(0, 0, -1)`. -/
theorem as_unit_vector_neg_z (z : ℝ) (hz : z < 0) :
    (Vec3.mk 0 0 z).as_unit_vector = ⟨0, 0, -1⟩ := by
  rw [Vec3.as_unit_vector, Vec3.magnitude]
  have h1 : (Vec3.mk 0 0 z).sqr_magnitude = z * z := by
    rw [Vec3.sqr_magnitude_def]
    ring
  rw [h1, Real.sqrt_mul_self_eq_abs, abs_of_neg hz]
  have hzne : z ≠ 0 := ne_of_lt hz
  simp only [Vec3.sdiv_def, Vec3.mk.injEq]
  refine ⟨by simp, by simp, ?_⟩
  rw [div_neg, div_self hzne]

theorem hemisphere_eval_C2 : (rngC2.hemisphereVec iC2.normal).1 = ⟨0, 0, -1⟩ := by
  rw [Rng.hemisphereVec, Rng.nextUnitVec]
  simp only [rngC2, iC2, Vec3.dot_def]
  norm_num

theorem refract_eval_C2 : (refractRay rayC2 iC2).normal =
    ⟨0, 0, -(1 / 100000) + 4 / 1000000000000000 - 2 / 10000000000000000000000000⟩ := by
  rw [refractRay_exit_ior_one rayC2 iC2 rfl rfl]
  have hd : rayC2.normal.dot iC2.normal = -(1 / 100000) + 1 / 1000000000000000 := by
    simp only [rayC2, iC2, Vec3.dot_def]
    norm_num
  rw [hd, abs_of_neg (by norm_num : (-(1 / 100000) + 1 / 1000000000000000 : ℝ) < 0)]
  simp only [rayC2, iC2, Vec3.smul_def, Vec3.add_def]
  norm_num

theorem reflect_eval_C2 :
    (reflectRay rayC2 iC2 ((rngC2.hemisphereVec iC2.normal).1)).normal = ⟨0, 0, -1⟩ := by
  rw [reflectRay, hemisphere_eval_C2]
  have hdiff : ((⟨0, 0, -1⟩ : Vec3) + iC2.normal).as_unit_vector = ⟨0, 0, -1⟩ := by
    rw [show ((⟨0, 0, -1⟩ : Vec3) + iC2.normal) = ⟨0, 0, -2 + 1 / 10000000000⟩ by
      simp only [iC2, Vec3.add_def]; norm_num]
    exact as_unit_vector_neg_z _ (by norm_num)
  have hspec : (rayC2.normal - iC2.normal * (2 * rayC2.normal.dot iC2.normal)).as_unit_vector =
      ⟨0, 0, -1⟩ := by
    rw [show (rayC2.normal - iC2.normal * (2 * rayC2.normal.dot iC2.normal)) =
        ⟨0, 0, -(1 / 100000) + 4 / 1000000000000000 - 2 / 10000000000000000000000000⟩ by
      simp only [rayC2, iC2, Vec3.dot_def, Vec3.smul_def, Vec3.sub_def]
      norm_num]
    exact as_unit_vector_neg_z _ (by norm_num)
  rw [hdiff, hspec]
  simp only [iC2, propOpaque, Vec3.sub_def, Vec3.smul_def, Vec3.add_def]
  norm_num

/-- C2, counterexample.  A realizable loop state refutes the claimed branch
condition: the tangent hit `iC2` of `sceneC2` has `is_entry = false` and the
drawn value `0.3` does not exceed the opacity `1`, so the claim demands the
reflection branch; the code's condition `!is_entry || draw > opacity`
(`branchIsRefraction`) holds and the loop takes the refraction branch, whose
continuation ray (direction `z ≈ -1e-5`, the unnormalised mirror formula at
ratio 1) observably differs from the reflection branch's continuation ray
(direction `(0,0,-1)` at roughness 0). -/
theorem c2_counterexample :
    Tracer.get_intersection sceneC2 rayC2 = some iC2 ∧
    iC2.is_entry = false ∧
    rngC2.u 0 ≤ iC2.prop.opacity ∧
    branchIsRefraction iC2 (rngC2.u 0) ∧
    traceLoop tracerDefault sceneC2 8 rayC2 ⟨0, 0, 0⟩ ⟨1, 1, 1⟩ false false rngC2 =
      traceLoop tracerDefault sceneC2 7 (refractRay rayC2 iC2)
        (⟨0, 0, 0⟩ + ⟨1, 1, 1⟩ * iC2.prop.emission) (⟨1, 1, 1⟩ * iC2.prop.color) true false
        ⟨fun n => rngC2.u (n + 1), rngC2.v⟩ ∧
    (refractRay rayC2 iC2).normal ≠
      (reflectRay rayC2 iC2 ((rngC2.hemisphereVec iC2.normal).1)).normal := by
  have hbranch : branchIsRefraction iC2 (rngC2.u 0) := by
    rw [branchIsRefraction]
    left
    rw [show iC2.is_entry = false from rfl]
    simp
  refine ⟨get_intersection_C2, rfl, ?_, hbranch, ?_, ?_⟩
  · show (3 / 10 : ℝ) ≤ propOpaque.opacity
    rw [propOpaque]
    norm_num
  · rw [traceLoop_step tracerDefault sceneC2 8 rayC2 ⟨0, 0, 0⟩ ⟨1, 1, 1⟩ false false rngC2 iC2
      get_intersection_C2 (by norm_num), if_pos hbranch]
  · rw [refract_eval_C2, reflect_eval_C2]
    intro habs
    have h1 := congrArg Vec3.z habs
    simp only at h1
    norm_num at h1

/-- C2, amended.  In every iteration of `trace_single_ray`'s loop in which a
hit survives the bounce budget, exactly one uniform random value is drawn for
the branch decision (both continuations run on the once-shifted uniform
stream), and the *refraction* branch is taken if and only if the surface is
NOT entered from outside OR the drawn value exceeds the material's opacity
(`!is_entry || draw > opacity`, tracer.rs line 113); the reflection branch is
taken only when the surface is entered from outside and the draw does not
exceed the opacity.  (The claim as stated has the condition inverted on
`is_entry`: exiting surfaces always refract.) -/
theorem c2_branch_selection (t : Tracer) (s : Scene) (fuel : ℕ) (ray : Ray) (c m : Vec3)
    (dr df : Bool) (g : Rng) (i : Intersect)
    (hit : Tracer.get_intersection s ray = some i) (hfuel : fuel - 1 ≠ 0) :
    traceLoop t s fuel ray c m dr df g =
      if branchIsRefraction i (g.u 0) then
        traceLoop t s (fuel - 1) (refractRay ray i) (c + m * i.prop.emission)
          (m * i.prop.color) true df ⟨fun n => g.u (n + 1), g.v⟩
      else
        traceLoop t s (fuel - 1) (reflectRay ray i ((g.hemisphereVec i.normal).1))
          (c + m * i.prop.emission) (m * i.prop.color) true df
          ⟨fun n => g.u (n + 1), fun n => g.v (n + 1)⟩ :=
  traceLoop_step t s fuel ray c m dr df g i hit hfuel

/-- C2, witness: the amended branch rule applied at the concrete tangent-hit
state of the counterexample. -/
theorem c2_branch_selection_witness :
    Tracer.get_intersection sceneC2 rayC2 = some iC2 ∧ (8 : ℕ) - 1 ≠ 0 ∧
    traceLoop tracerDefault sceneC2 8 rayC2 ⟨0, 0, 0⟩ ⟨1, 1, 1⟩ false false rngC2 =
      (if branchIsRefraction iC2 (rngC2.u 0) then
        traceLoop tracerDefault sceneC2 (8 - 1) (refractRay rayC2 iC2)
          (⟨0, 0, 0⟩ + ⟨1, 1, 1⟩ * iC2.prop.emission) (⟨1, 1, 1⟩ * iC2.prop.color) true false
          ⟨fun n => rngC2.u (n + 1), rngC2.v⟩
      else
        traceLoop tracerDefault sceneC2 (8 - 1)
          (reflectRay rayC2 iC2 ((rngC2.hemisphereVec iC2.normal).1))
          (⟨0, 0, 0⟩ + ⟨1, 1, 1⟩ * iC2.prop.emission) (⟨1, 1, 1⟩ * iC2.prop.color) true false
          ⟨fun n => rngC2.u (n + 1), fun n => rngC2.v (n + 1)⟩) :=
  ⟨get_intersection_C2, by norm_num,
    c2_branch_selection tracerDefault sceneC2 8 rayC2 ⟨0, 0, 0⟩ ⟨1, 1, 1⟩ false false rngC2 iC2
      get_intersection_C2 (by norm_num)⟩

theorem branch_glass_refracts : branchIsRefraction iGlass (rngGlass.u 0) := by
  rw [branchIsRefraction]
  right
  show (if (0 : ℕ) = 0 then (9 / 10 : ℝ) else 1 / 10) > propGlass.opacity
  rw [propGlass]
  norm_num

theorem refract_eval_glass : refractRay rayGlass iGlass = ⟨⟨0, 0, 1⟩, ⟨0, 0, 1⟩⟩ := by
  rw [refractRay_entry_ior_one rayGlass iGlass rfl rfl]
  have hd : rayGlass.normal.dot (-iGlass.normal) = 1 := by
    simp only [rayGlass, iGlass, Vec3.neg_def, Vec3.dot_def]
    norm_num
  rw [hd]
  simp only [rayGlass, iGlass, Vec3.neg_def, Vec3.smul_def, Vec3.add_def, Ray.mk.injEq,
    Vec3.mk.injEq]
  norm_num

theorem missColor_glass_fwd (c m : Vec3) :
    missColor sceneGlass ⟨⟨0, 0, 1⟩, ⟨0, 0, 1⟩⟩ c m = c + m * (⟨2, 2, 2⟩ : Vec3) := by
  rw [missColor]
  cases c with
  | mk cx cy cz =>
    cases m with
    | mk mx my mz =>
      simp only [sceneGlass, Vec3.dot_def, Vec3.smul_def, Vec3.add_def, Vec3.sub_def,
        Vec3.mul_def]
      norm_num

theorem missColor_glass_back (c m : Vec3) :
    missColor sceneGlass ⟨⟨0, 0, 1⟩, ⟨0, 0, -1⟩⟩ c m = c := by
  rw [missColor]
  cases c with
  | mk cx cy cz =>
    cases m with
    | mk mx my mz =>
      simp only [sceneGlass, Vec3.dot_def, Vec3.smul_def, Vec3.add_def, Vec3.sub_def,
        Vec3.mul_def]
      norm_num

/-- The primary sample of the C3 scenario: one refraction (draw `0.9` beats
opacity `0.5`), then the refracted ray `(0,0,1)` from inside the sphere
misses everything (the C1 defect) and picks up the sun color `(2,2,2)`.
Exactly one uniform draw is consumed; `did_reflect` is set (the path hit a
surface) even though no reflection branch was ever taken, and `did_refract`
stays `false` even though the path refracted. -/
theorem trace_single_eval_primary :
    tracerC3.trace_single_ray sceneGlass rayGlass rngGlass =
      (⟨⟨2, 2, 2⟩, true, false⟩, ⟨fun n => rngGlass.u (n + 1), rngGlass.v⟩) := by
  rw [Tracer.trace_single_ray]
  rw [show tracerC3.max_reflect = 8 from rfl]
  rw [traceLoop_step tracerC3 sceneGlass 8 rayGlass ⟨0, 0, 0⟩ ⟨1, 1, 1⟩ false false rngGlass
    iGlass get_intersection_glass (by norm_num)]
  rw [if_pos branch_glass_refracts, refract_eval_glass]
  rw [traceLoop_miss tracerC3 sceneGlass (8 - 1) ⟨⟨0, 0, 1⟩, ⟨0, 0, 1⟩⟩ _ _ true false _
    get_intersection_glass_exit]
  rw [missColor_glass_fwd]
  simp only [iGlass, propGlass, Vec3.mul_def, Vec3.add_def, Prod.mk.injEq,
    RayTraceResult.mk.injEq, Vec3.mk.injEq]
  norm_num

/-- An extra sample of the C3 scenario, from any RNG whose next draw is `0.1`
(≤ opacity: reflection branch) and whose next unit vector is `(0,0,-1)`: the
mirror ray `(0,0,-1)` misses everything behind the camera and contributes
black.  One uniform draw and one unit vector are consumed. -/
theorem trace_single_eval_reflect (g : Rng) (hu : g.u 0 = 1 / 10)
    (hv : g.v 0 = ⟨0, 0, -1⟩) :
    tracerC3.trace_single_ray sceneGlass rayGlass g =
      (⟨⟨0, 0, 0⟩, true, false⟩, ⟨fun n => g.u (n + 1), fun n => g.v (n + 1)⟩) := by
  rw [Tracer.trace_single_ray]
  rw [show tracerC3.max_reflect = 8 from rfl]
  rw [traceLoop_step tracerC3 sceneGlass 8 rayGlass ⟨0, 0, 0⟩ ⟨1, 1, 1⟩ false false g
    iGlass get_intersection_glass (by norm_num)]
  have hnb : ¬branchIsRefraction iGlass (g.u 0) := by
    rw [branchIsRefraction, hu]
    push_neg
    constructor
    · rw [show iGlass.is_entry = true from rfl]
    · show (1 / 10 : ℝ) ≤ propGlass.opacity
      rw [propGlass]
      norm_num
  rw [if_neg hnb]
  have hhemi : (g.hemisphereVec iGlass.normal).1 = ⟨0, 0, -1⟩ := by
    rw [Rng.hemisphereVec, Rng.nextUnitVec]
    simp only [hv, iGlass, Vec3.dot_def]
    norm_num
  have hrefl : reflectRay rayGlass iGlass ((g.hemisphereVec iGlass.normal).1) =
      ⟨⟨0, 0, 1⟩, ⟨0, 0, -1⟩⟩ := by
    rw [reflectRay, hhemi]
    have hdiff : ((⟨0, 0, -1⟩ : Vec3) + iGlass.normal).as_unit_vector = ⟨0, 0, -1⟩ := by
      rw [show ((⟨0, 0, -1⟩ : Vec3) + iGlass.normal) = ⟨0, 0, -2⟩ by
        simp only [iGlass, Vec3.add_def]; norm_num]
      exact as_unit_vector_neg_z _ (by norm_num)
    have hspec : (rayGlass.normal - iGlass.normal *
        (2 * rayGlass.normal.dot iGlass.normal)).as_unit_vector = ⟨0, 0, -1⟩ := by
      rw [show (rayGlass.normal - iGlass.normal * (2 * rayGlass.normal.dot iGlass.normal)) =
          ⟨0, 0, -1⟩ by
        simp only [rayGlass, iGlass, Vec3.dot_def, Vec3.smul_def, Vec3.sub_def]
        norm_num]
      exact as_unit_vector_neg_z _ (by norm_num)
    rw [hdiff, hspec]
    simp only [iGlass, propGlass, Vec3.sub_def, Vec3.smul_def, Vec3.add_def, Ray.mk.injEq,
      Vec3.mk.injEq]
    norm_num
  rw [hrefl]
  rw [traceLoop_miss tracerC3 sceneGlass (8 - 1) ⟨⟨0, 0, 1⟩, ⟨0, 0, -1⟩⟩ _ _ true false _
    get_intersection_glass_back]
  rw [missColor_glass_back]
  simp only [iGlass, propGlass, Vec3.mul_def, Vec3.add_def, Prod.mk.injEq,
    RayTraceResult.mk.injEq, Vec3.mk.injEq]
  norm_num

theorem extraSamples_zero (t : Tracer) (s : Scene) (ray : Ray) (acc : Vec3) (g : Rng) :
    extraSamples t s ray 0 acc g = (acc, g) := rfl

theorem extraSamples_succ (t : Tracer) (s : Scene) (ray : Ray) (n : ℕ) (acc : Vec3) (g : Rng) :
    extraSamples t s ray (n + 1) acc g =
      extraSamples t s ray n (acc + (t.trace_single_ray s ray g).1.color)
        (t.trace_single_ray s ray g).2 := rfl

theorem trace_multi_ray_eq (t : Tracer) (s : Scene) (ray : Ray) (g : Rng) :
    t.trace_multi_ray s ray g =
      ({ color := (extraSamples t s ray
            (((cond (t.trace_single_ray s ray g).1.did_reflect 1 0) * t.reflect_samples +
              (cond (t.trace_single_ray s ray g).1.did_refract 1 0) * t.refract_samples) % 65536)
            (t.trace_single_ray s ray g).1.color (t.trace_single_ray s ray g).2).1 /
            ((((((cond (t.trace_single_ray s ray g).1.did_reflect 1 0) * t.reflect_samples +
              (cond (t.trace_single_ray s ray g).1.did_refract 1 0) * t.refract_samples) % 65536)
              + 1) % 65536 : ℕ) : ℝ),
         did_reflect := (t.trace_single_ray s ray g).1.did_reflect,
         did_refract := (t.trace_single_ray s ray g).1.did_refract },
       (extraSamples t s ray
            (((cond (t.trace_single_ray s ray g).1.did_reflect 1 0) * t.reflect_samples +
              (cond (t.trace_single_ray s ray g).1.did_refract 1 0) * t.refract_samples) % 65536)
            (t.trace_single_ray s ray g).1.color (t.trace_single_ray s ray g).2).2) := rfl

/-- The full multi-sample evaluation of the C3 scenario: the primary sample
contributes `(2,2,2)`, `did_reflect = true` triggers `reflect_samples = 2`
extra samples (both black), `did_refract = false` suppresses the
`refract_samples = 5`, and the result is the average over 3 samples. -/
theorem trace_multi_eval_glass :
    (tracerC3.trace_multi_ray sceneGlass rayGlass rngGlass).1 =
      (⟨⟨2 / 3, 2 / 3, 2 / 3⟩, true, false⟩ : RayTraceResult) := by
  have hs1c : tracerC3.trace_single_ray sceneGlass rayGlass
      ⟨fun n => rngGlass.u (n + 1), rngGlass.v⟩ =
      ((⟨⟨0, 0, 0⟩, true, false⟩ : RayTraceResult),
        (⟨fun n => rngGlass.u (n + 1 + 1), fun n => rngGlass.v (n + 1)⟩ : Rng)) := by
    rw [trace_single_eval_reflect _ (by simp [rngGlass]) rfl]
  have hs2c : tracerC3.trace_single_ray sceneGlass rayGlass
      ⟨fun n => rngGlass.u (n + 1 + 1), fun n => rngGlass.v (n + 1)⟩ =
      ((⟨⟨0, 0, 0⟩, true, false⟩ : RayTraceResult),
        (⟨fun n => rngGlass.u (n + 1 + 1 + 1), fun n => rngGlass.v (n + 1 + 1)⟩ : Rng)) := by
    rw [trace_single_eval_reflect _ (by simp [rngGlass]) rfl]
  have hextra : extraSamples tracerC3 sceneGlass rayGlass 2 (⟨2, 2, 2⟩ : Vec3)
      ⟨fun n => rngGlass.u (n + 1), rngGlass.v⟩ =
      ((⟨2, 2, 2⟩ : Vec3),
        (⟨fun n => rngGlass.u (n + 1 + 1 + 1), fun n => rngGlass.v (n + 1 + 1)⟩ : Rng)) := by
    rw [extraSamples_succ, hs1c]
    dsimp only
    rw [extraSamples_succ, hs2c]
    dsimp only
    rw [extraSamples_zero]
    simp only [Prod.mk.injEq, Vec3.add_def, Vec3.mk.injEq]
    norm_num
  rw [trace_multi_ray_eq, trace_single_eval_primary]
  dsimp only
  simp only [Bool.cond_true, Bool.cond_false]
  rw [show ((1 * tracerC3.reflect_samples + 0 * tracerC3.refract_samples) % 65536 : ℕ) = 2
    from rfl]
  rw [hextra]
  dsimp only
  simp only [RayTraceResult.mk.injEq, Vec3.sdiv_def, Vec3.mk.injEq]
  norm_num

/-- C3, counterexample.  A primary sample that refracts (entry hit, draw
`0.9 > opacity 0.5`) and never takes the reflection branch (its refracted ray
misses everything; conjuncts 1-5), with `reflect_samples = 2` and
`refract_samples = 5`.  Under the claim, a path that refracted at least once
takes `refract_samples = 5` extra samples and one that never reflected takes
no `reflect_samples`, so the result would be the average of 6 samples — with
all five extras black at this RNG, `(2,2,2)/6 = (1/3,1/3,1/3)`.  The code
instead leaves `did_refract` forever `false` (conjunct 6) and sets
`did_reflect` on any hit, taking `reflect_samples = 2` extras and returning
the 3-sample average `(2/3,2/3,2/3)` ≠ `(1/3,1/3,1/3)`. -/
theorem c3_counterexample :
    Tracer.get_intersection sceneGlass rayGlass = some iGlass ∧
    iGlass.is_entry = true ∧
    rngGlass.u 0 > propGlass.opacity ∧
    refractRay rayGlass iGlass = ⟨⟨0, 0, 1⟩, ⟨0, 0, 1⟩⟩ ∧
    Tracer.get_intersection sceneGlass ⟨⟨0, 0, 1⟩, ⟨0, 0, 1⟩⟩ = none ∧
    (tracerC3.trace_single_ray sceneGlass rayGlass rngGlass).1.did_refract = false ∧
    tracerC3.reflect_samples = 2 ∧
    tracerC3.refract_samples = 5 ∧
    (tracerC3.trace_multi_ray sceneGlass rayGlass rngGlass).1.color = ⟨2 / 3, 2 / 3, 2 / 3⟩ ∧
    (tracerC3.trace_multi_ray sceneGlass rayGlass rngGlass).1.color ≠ ⟨1 / 3, 1 / 3, 1 / 3⟩ := by
  refine ⟨get_intersection_glass, rfl, ?_, refract_eval_glass, get_intersection_glass_exit,
    trace_single_did_refract _ _ _ _, rfl, rfl, ?_, ?_⟩
  · show (if (0 : ℕ) = 0 then (9 / 10 : ℝ) else 1 / 10) > propGlass.opacity
    rw [propGlass]
    norm_num
  · rw [trace_multi_eval_glass]
  · rw [trace_multi_eval_glass]
    simp only [ne_eq, Vec3.mk.injEq]
    norm_num

/-- C3, amended.  `trace_multi_ray` always takes one primary sample; it then
takes `reflect_samples · did_reflect + refract_samples · did_refract` extra
independent samples gated by the primary sample's 0/1 flags, and returns the
uniform average of all samples including the primary — but `did_refract` is
never set by `trace_single_ray` (a refracting path contributes nothing to the
count through it), and `did_reflect` is set whenever the path hit at least
one surface, whichever branch followed, so the extra count is
`reflect_samples` if the primary hit anything and `0` otherwise.  (The
hypothesis keeps both the `u16` sum of the two sample counts and the `u16`
divisor `samples + 1` from wrapping; at `samples = 65535` the program instead
divides by the wrapped `0`.) -/
theorem c3_sample_counts (t : Tracer) (s : Scene) (ray : Ray) (g : Rng)
    (hs : t.reflect_samples + t.refract_samples < 65535) :
    t.trace_multi_ray s ray g =
      ({ color := (extraSamples t s ray
            (cond (t.trace_single_ray s ray g).1.did_reflect t.reflect_samples 0)
            (t.trace_single_ray s ray g).1.color (t.trace_single_ray s ray g).2).1 /
            (((cond (t.trace_single_ray s ray g).1.did_reflect t.reflect_samples 0) + 1 : ℕ) : ℝ),
         did_reflect := (t.trace_single_ray s ray g).1.did_reflect,
         did_refract := false },
       (extraSamples t s ray
            (cond (t.trace_single_ray s ray g).1.did_reflect t.reflect_samples 0)
            (t.trace_single_ray s ray g).1.color (t.trace_single_ray s ray g).2).2) := by
  rw [trace_multi_ray_eq, trace_single_did_refract]
  have hsmall : (((cond (t.trace_single_ray s ray g).1.did_reflect 1 0) * t.reflect_samples +
      (cond false 1 0) * t.refract_samples) % 65536) =
      cond (t.trace_single_ray s ray g).1.did_reflect t.reflect_samples 0 := by
    cases hdr : (t.trace_single_ray s ray g).1.did_reflect with
    | false => simp
    | true =>
      simp only [Bool.cond_true, Bool.cond_false, Nat.one_mul, Nat.zero_mul, Nat.add_zero]
      exact Nat.mod_eq_of_lt
        (lt_of_le_of_lt (Nat.le_add_right _ t.refract_samples) (by omega))
  rw [hsmall]
  have hdiv : ((cond (t.trace_single_ray s ray g).1.did_reflect t.reflect_samples 0) + 1) %
      65536 = (cond (t.trace_single_ray s ray g).1.did_reflect t.reflect_samples 0) + 1 := by
    apply Nat.mod_eq_of_lt
    have hle : (cond (t.trace_single_ray s ray g).1.did_reflect t.reflect_samples 0) ≤
        t.reflect_samples := by
      cases (t.trace_single_ray s ray g).1.did_reflect
      · exact Nat.zero_le _
      · exact Nat.le_refl _
    omega
  rw [hdiv]

/-- C3, witness: the amended sample-count rule applied at the concrete
scenario of the counterexample (hypothesis `2 + 5 < 65535` discharged). -/
theorem c3_sample_counts_witness :
    tracerC3.reflect_samples + tracerC3.refract_samples < 65535 ∧
    tracerC3.trace_multi_ray sceneGlass rayGlass rngGlass =
      ({ color := (extraSamples tracerC3 sceneGlass rayGlass
            (cond (tracerC3.trace_single_ray sceneGlass rayGlass rngGlass).1.did_reflect
              tracerC3.reflect_samples 0)
            (tracerC3.trace_single_ray sceneGlass rayGlass rngGlass).1.color
            (tracerC3.trace_single_ray sceneGlass rayGlass rngGlass).2).1 /
            (((cond (tracerC3.trace_single_ray sceneGlass rayGlass rngGlass).1.did_reflect
              tracerC3.reflect_samples 0) + 1 : ℕ) : ℝ),
         did_reflect := (tracerC3.trace_single_ray sceneGlass rayGlass rngGlass).1.did_reflect,
         did_refract := false },
       (extraSamples tracerC3 sceneGlass rayGlass
            (cond (tracerC3.trace_single_ray sceneGlass rayGlass rngGlass).1.did_reflect
              tracerC3.reflect_samples 0)
            (tracerC3.trace_single_ray sceneGlass rayGlass rngGlass).1.color
            (tracerC3.trace_single_ray sceneGlass rayGlass rngGlass).2).2) :=
  ⟨by rw [show tracerC3.reflect_samples = 2 from rfl,
      show tracerC3.refract_samples = 5 from rfl]; norm_num,
    c3_sample_counts tracerC3 sceneGlass rayGlass rngGlass
      (by rw [show tracerC3.reflect_samples = 2 from rfl,
        show tracerC3.refract_samples = 5 from rfl]; norm_num)⟩

theorem fold_targetSet_untouched {α : Type} (ls : List α) (X Y : α → ℕ) (val : α → Vec3)
    (px py : ℕ) :
    (∀ a ∈ ls, ¬(X a = px ∧ Y a = py)) → ∀ (t : Target),
    (ls.foldl (fun t a => targetSet t (X a) (Y a) (val a)) t) (px, py) = t (px, py) := by
  induction ls with
  | nil => intro _ t; rfl
  | cons a ls ih =>
    intro h t
    rw [List.foldl_cons, ih (fun b hb => h b (List.mem_cons_of_mem a hb))]
    rw [targetSet, if_neg]
    intro habs
    injection habs with h1 h2
    exact h a (List.mem_cons_self a ls) ⟨h1.symm, h2.symm⟩

theorem fold_targetSet_covered {α : Type} (ls : List α) (X Y : α → ℕ) (val : α → Vec3)
    (φ : ℕ → ℕ → Vec3) (px py : ℕ) :
    (∀ a ∈ ls, val a = φ (X a) (Y a)) → (∃ a ∈ ls, X a = px ∧ Y a = py) → ∀ (t : Target),
    (ls.foldl (fun t a => targetSet t (X a) (Y a) (val a)) t) (px, py) = φ px py := by
  induction ls with
  | nil =>
    intro _ hcov t
    obtain ⟨a, ha, _⟩ := hcov
    exact absurd ha (List.not_mem_nil a)
  | cons a ls ih =>
    intro hcanon hcov t
    rw [List.foldl_cons]
    by_cases hc : ∃ b ∈ ls, X b = px ∧ Y b = py
    · exact ih (fun b hb => hcanon b (List.mem_cons_of_mem a hb)) hc _
    · obtain ⟨b, hb, hxy⟩ := hcov
      rcases List.mem_cons.mp hb with rfl | hb'
      · rw [fold_targetSet_untouched ls X Y val px py
          (fun c hc' hcc => hc ⟨c, hc', hcc⟩)]
        rw [targetSet, if_pos (by rw [hxy.1, hxy.2])]
        rw [hcanon b (List.mem_cons_self b ls), hxy.1, hxy.2]
      · exact absurd ⟨b, hb', hxy⟩ hc

theorem foldl_grid {σ : Type} (f : σ → ℕ → ℕ → σ) (w h : ℕ) : ∀ (s : σ),
    (List.range h).foldl (fun s y => (List.range w).foldl (fun s x => f s x y) s) s =
    (pixelList w h).foldl (fun s p => f s p.1 p.2) s := by
  induction h with
  | zero => intro s; rfl
  | succ h ih =>
    intro s
    rw [List.range_succ, List.foldl_append, ih]
    rw [show pixelList w (h + 1) = pixelList w h ++ (List.range w).map (fun x => (x, h)) by
      rw [pixelList, pixelList, List.range_succ, List.flatMap_append]
      simp]
    rw [List.foldl_append, List.foldl_map]
    simp only [List.foldl_cons, List.foldl_nil]

theorem pixelList_eq (w h : ℕ) :
    pixelList w h = (List.range (w * h)).map fun l => (l % w, l / w) := by
  induction h with
  | zero => simp [pixelList]
  | succ h ih =>
    rw [show pixelList w (h + 1) = pixelList w h ++ (List.range w).map (fun x => (x, h)) by
      rw [pixelList, pixelList, List.range_succ, List.flatMap_append]
      simp]
    rw [ih, Nat.mul_succ, List.range_add, List.map_append, List.map_map]
    congr 1
    apply List.map_congr_left
    intro x hx
    have hxw : x < w := List.mem_range.mp hx
    have hw : 0 < w := lt_of_le_of_lt (Nat.zero_le x) hxw
    simp only [Function.comp_apply]
    rw [Nat.mul_add_mod, Nat.mod_eq_of_lt hxw, Nat.mul_add_div hw, Nat.div_eq_of_lt hxw,
      Nat.add_zero]

theorem interlaceLen_lt (w h N i l : ℕ) (hi : i < N) (hl : l < w * h) (hmod : l % N = i) :
    l / N < interlaceLen w h N i := by
  have hN : 0 < N := lt_of_le_of_lt (Nat.zero_le i) hi
  have h1 : N * (w * h / N) + w * h % N = w * h := Nat.div_add_mod (w * h) N
  have h2 : N * (l / N) + i = l := by rw [← hmod]; exact Nat.div_add_mod l N
  have hr : w * h % N < N := Nat.mod_lt _ hN
  rw [interlaceLen]
  by_contra hcon
  push_neg at hcon
  split_ifs at hcon with hgt
  · have h3 : N * (w * h / N + 1) ≤ N * (l / N) := Nat.mul_le_mul_left N hcon
    have h4 : N * (w * h / N + 1) = N * (w * h / N) + N := by ring
    omega
  · have h3 : N * (w * h / N) ≤ N * (l / N) := Nat.mul_le_mul_left N hcon
    omega

theorem interlaceLen_mem_lt (w h N i j : ℕ) (hi : i < N) (hj : j < interlaceLen w h N i) :
    j * N + i < w * h := by
  have hN : 0 < N := lt_of_le_of_lt (Nat.zero_le i) hi
  have h1 : N * (w * h / N) + w * h % N = w * h := Nat.div_add_mod (w * h) N
  have hr : w * h % N < N := Nat.mod_lt _ hN
  rw [interlaceLen] at hj
  split_ifs at hj with hgt
  · have h2 : j * N ≤ (w * h / N) * N := Nat.mul_le_mul_right N (by omega)
    have h3 : (w * h / N) * N = N * (w * h / N) := Nat.mul_comm _ _
    omega
  · have h2 : (j + 1) * N ≤ (w * h / N) * N := Nat.mul_le_mul_right N (by omega)
    have h3 : (j + 1) * N = j * N + N := by ring
    have h4 : (w * h / N) * N = N * (w * h / N) := Nat.mul_comm _ _
    omega

theorem list_getD_set_ne {α : Type} (l : List α) (k j : ℕ) (hne : k ≠ j) (a d : α) :
    (l.set k a).getD j d = l.getD j d := by
  simp [List.getD, List.getElem?_set_ne hne]

theorem lin_lt (w h x y : ℕ) (hx : x < w) (hy : y < h) : x + y * w < w * h := by
  have h1 : (y + 1) * w ≤ h * w := Nat.mul_le_mul_right w hy
  have h2 : (y + 1) * w = y * w + w := by ring
  have h3 : h * w = w * h := Nat.mul_comm h w
  omega

theorem lin_mod (w x y : ℕ) (hx : x < w) : (x + y * w) % w = x := by
  rw [Nat.add_mul_mod_self_right, Nat.mod_eq_of_lt hx]

theorem lin_div (w x y : ℕ) (hx : x < w) : (x + y * w) / w = y := by
  rw [Nat.add_mul_div_right x y (lt_of_le_of_lt (Nat.zero_le x) hx), Nat.div_eq_of_lt hx,
    Nat.zero_add]

theorem partialDataFold_succ (render : ℕ → ℕ → Vec3) (w N i M : ℕ) (d : List Vec3) :
    partialDataFold render w N i (M + 1) d =
    (if M % N = i then
      (partialDataFold render w N i M d).set (M / N) (render (M % w) (M / w))
     else partialDataFold render w N i M d) := by
  rw [partialDataFold, List.range_succ, List.foldl_append, ← partialDataFold]
  rfl

theorem partialDataFold_length (render : ℕ → ℕ → Vec3) (w N i : ℕ) (M : ℕ) (d : List Vec3) :
    (partialDataFold render w N i M d).length = d.length := by
  induction M with
  | zero => rfl
  | succ M ih =>
    rw [partialDataFold_succ]
    split_ifs
    · rw [List.length_set]; exact ih
    · exact ih

theorem partialDataFold_getD (render : ℕ → ℕ → Vec3) (w N i : ℕ) (hi : i < N) (j : ℕ)
    (d : List Vec3) (hj : j < d.length) : ∀ (M : ℕ), j * N + i < M →
    (partialDataFold render w N i M d).getD j ⟨0, 0, 0⟩ =
    render ((j * N + i) % w) ((j * N + i) / w) := by
  intro M
  induction M with
  | zero => intro h0; exact absurd h0 (Nat.not_lt_zero _)
  | succ M ih =>
    intro hM
    rw [partialDataFold_succ]
    by_cases heq : j * N + i = M
    · have hmod : M % N = i := by
        rw [← heq, Nat.mul_comm j N, Nat.mul_add_mod, Nat.mod_eq_of_lt hi]
      have hdiv : M / N = j := by
        rw [← heq, Nat.mul_comm j N,
          Nat.mul_add_div (lt_of_le_of_lt (Nat.zero_le i) hi), Nat.div_eq_of_lt hi,
          Nat.add_zero]
      have hjl : j < (partialDataFold render w N i M d).length := by
        rw [partialDataFold_length]; exact hj
      rw [if_pos hmod, hdiv, heq, list_getD_set_self _ _ _ _ hjl]
    · have hlt : j * N + i < M := by omega
      by_cases hmod : M % N = i
      · have hne : M / N ≠ j := by
          intro hdj
          apply heq
          have hdm := Nat.div_add_mod M N
          rw [hdj, hmod] at hdm
          rw [← hdm]; ring
        rw [if_pos hmod, list_getD_set_ne _ _ _ hne]
        exact ih hlt
      · rw [if_neg hmod]
        exact ih hlt

theorem rowFold_set_pixel (render : ℕ → ℕ → Vec3) (w H N i y : ℕ) (ls : List ℕ) :
    ∀ d : List Vec3,
    ls.foldl (fun fb x => if (x + y * w) % N ≠ i then fb
        else PartialFramebuffer.set_pixel fb x y (render x y)) ⟨d, w, H, N, i⟩ =
    (⟨ls.foldl (fun dd x => if (x + y * w) % N = i
        then dd.set ((x + y * w) / N) (render x y) else dd) d, w, H, N, i⟩ :
      PartialFramebuffer) := by
  induction ls with
  | nil => intro d; rfl
  | cons x ls ih =>
    intro d
    rw [List.foldl_cons, List.foldl_cons]
    by_cases hc : (x + y * w) % N = i
    · rw [if_neg (not_not_intro hc), if_pos hc]
      have hset : PartialFramebuffer.set_pixel ⟨d, w, H, N, i⟩ x y (render x y) =
          ⟨d.set ((x + y * w) / N) (render x y), w, H, N, i⟩ := by
        rw [PartialFramebuffer.set_pixel]
        exact if_neg (not_not_intro hc)
      rw [hset]
      exact ih _
    · rw [if_pos hc, if_neg hc]
      exact ih _

theorem tracePartialImage_succ {σ : Type} (set : σ → ℕ → ℕ → Vec3 → σ)
    (render : ℕ → ℕ → Vec3) (fb : σ) (w h N i : ℕ) :
    tracePartialImage set render fb w (h + 1) N i =
    (List.range w).foldl
      (fun fb x => if (x + h * w) % N ≠ i then fb else set fb x h (render x h))
      (tracePartialImage set render fb w h N i) := by
  rw [tracePartialImage, tracePartialImage, List.range_succ, List.foldl_append]
  rfl

theorem tracePartialImage_fold (render : ℕ → ℕ → Vec3) (w H N i : ℕ) (h : ℕ)
    (d : List Vec3) :
    tracePartialImage PartialFramebuffer.set_pixel render ⟨d, w, H, N, i⟩ w h N i =
    (⟨partialDataFold render w N i (w * h) d, w, H, N, i⟩ : PartialFramebuffer) := by
  induction h with
  | zero => rw [Nat.mul_zero]; rfl
  | succ h ih =>
    rw [tracePartialImage_succ, ih, rowFold_set_pixel]
    rw [show w * (h + 1) = w * h + w by ring]
    conv_rhs => rw [partialDataFold, List.range_add, List.foldl_append, List.foldl_map]
    conv_lhs => rw [partialDataFold]
    congr 1
    apply List.foldl_ext
    intro dd x hx
    have hxw : x < w := List.mem_range.mp hx
    have hw : 0 < w := lt_of_le_of_lt (Nat.zero_le x) hxw
    have e1 : (w * h + x) % w = x := by rw [Nat.mul_add_mod, Nat.mod_eq_of_lt hxw]
    have e2 : (w * h + x) / w = h := by
      rw [Nat.mul_add_div hw, Nat.div_eq_of_lt hxw, Nat.add_zero]
    rw [e1, e2, show w * h + x = x + h * w by ring]

theorem tracePartialImage_pixelList {σ : Type} (set : σ → ℕ → ℕ → Vec3 → σ)
    (render : ℕ → ℕ → Vec3) (w h N i : ℕ) (fb : σ) :
    tracePartialImage set render fb w h N i =
    (pixelList w h).foldl
      (fun fb p => if (p.1 + p.2 * w) % N ≠ i then fb else set fb p.1 p.2 (render p.1 p.2))
      fb := by
  rw [tracePartialImage]
  exact foldl_grid
    (fun fb x y => if (x + y * w) % N ≠ i then fb else set fb x y (render x y)) w h fb

theorem pixel_mem_pixelList (w h x y : ℕ) (hx : x < w) (hy : y < h) :
    (x, y) ∈ pixelList w h := by
  rw [pixelList_eq]
  refine List.mem_map.mpr ⟨x + y * w, List.mem_range.mpr (lin_lt w h x y hx hy), ?_⟩
  rw [lin_mod w x y hx, lin_div w x y hx]

theorem single_worker_pixel (render : ℕ → ℕ → Vec3) (w h : ℕ) (t : Target) (x y : ℕ)
    (hx : x < w) (hy : y < h) :
    tracePartialImage targetSet render t w h 1 0 (x, y) = render x y := by
  rw [tracePartialImage_pixelList]
  have hstep : (fun (t : Target) (p : ℕ × ℕ) =>
      if (p.1 + p.2 * w) % 1 ≠ 0 then t else targetSet t p.1 p.2 (render p.1 p.2)) =
      fun t p => targetSet t p.1 p.2 (render p.1 p.2) := by
    funext t p
    rw [Nat.mod_one, if_neg (not_not_intro rfl)]
  rw [hstep]
  exact fold_targetSet_covered (pixelList w h) Prod.fst Prod.snd
    (fun p => render p.1 p.2) render x y (fun a _ => rfl)
    ⟨(x, y), pixel_mem_pixelList w h x y hx hy, rfl, rfl⟩ t

theorem worker_pixel (render : ℕ → ℕ → Vec3) (w h N i x y : ℕ) (hi : i < N)
    (hx : x < w) (hy : y < h) (t : Target) :
    PartialFramebuffer.update targetSet
      (tracePartialImage PartialFramebuffer.set_pixel render
        (PartialFramebuffer.new w h N i) w h N i) t (x, y) =
    (if (x + y * w) % N = i then render x y else t (x, y)) := by
  have hD : tracePartialImage PartialFramebuffer.set_pixel render
      (PartialFramebuffer.new w h N i) w h N i =
      (⟨partialDataFold render w N i (w * h)
          (List.replicate (interlaceLen w h N i) ⟨0, 0, 0⟩), w, h, N, i⟩ :
        PartialFramebuffer) :=
    tracePartialImage_fold render w h N i h _
  rw [hD]
  have hcanon : ∀ j ∈ List.range (interlaceLen w h N i),
      (partialDataFold render w N i (w * h)
        (List.replicate (interlaceLen w h N i) ⟨0, 0, 0⟩)).getD j ⟨0, 0, 0⟩ =
      render ((j * N + i) % w) ((j * N + i) / w) := by
    intro j hj
    exact partialDataFold_getD render w N i hi j _
      (by rw [List.length_replicate]; exact List.mem_range.mp hj) (w * h)
      (interlaceLen_mem_lt w h N i j hi (List.mem_range.mp hj))
  by_cases hown : (x + y * w) % N = i
  · rw [if_pos hown]
    have hjlt : (x + y * w) / N < interlaceLen w h N i :=
      interlaceLen_lt w h N i (x + y * w) hi (lin_lt w h x y hx hy) hown
    have hidx : (x + y * w) / N * N + i = x + y * w := by
      rw [← hown]; exact Nat.div_add_mod' _ _
    exact fold_targetSet_covered (List.range (interlaceLen w h N i))
      (fun j => (j * N + i) % w) (fun j => (j * N + i) / w)
      (fun j => (partialDataFold render w N i (w * h)
        (List.replicate (interlaceLen w h N i) ⟨0, 0, 0⟩)).getD j ⟨0, 0, 0⟩)
      render x y hcanon
      ⟨(x + y * w) / N, List.mem_range.mpr hjlt,
        by show ((x + y * w) / N * N + i) % w = x; rw [hidx]; exact lin_mod w x y hx,
        by show ((x + y * w) / N * N + i) / w = y; rw [hidx]; exact lin_div w x y hx⟩ t
  · rw [if_neg hown]
    refine fold_targetSet_untouched (List.range (interlaceLen w h N i))
      (fun j => (j * N + i) % w) (fun j => (j * N + i) / w)
      (fun j => (partialDataFold render w N i (w * h)
        (List.replicate (interlaceLen w h N i) ⟨0, 0, 0⟩)).getD j ⟨0, 0, 0⟩)
      x y ?_ t
    intro j _ hcc
    obtain ⟨hcx, hcy⟩ := hcc
    have hcx' : (j * N + i) % w = x := hcx
    have hcy' : (j * N + i) / w = y := hcy
    have hji : (j * N + i) % N = i := by
      rw [Nat.mul_comm j N, Nat.mul_add_mod, Nat.mod_eq_of_lt hi]
    have hl : j * N + i = x + y * w := by
      have h1 : w * ((j * N + i) / w) + (j * N + i) % w = j * N + i :=
        Nat.div_add_mod _ w
      rw [hcx', hcy', Nat.mul_comm w y] at h1
      omega
    exact hown (by rw [← hl]; exact hji)

theorem workers_fold (render : ℕ → ℕ → Vec3) (w h N x y : ℕ) (hx : x < w) (hy : y < h)
    (ls : List ℕ) : ∀ t : Target, (∀ i ∈ ls, i < N) →
    (ls.foldl (fun t i =>
        PartialFramebuffer.update targetSet
          (tracePartialImage PartialFramebuffer.set_pixel render
            (PartialFramebuffer.new w h N i) w h N i) t) t) (x, y) =
    (if (x + y * w) % N ∈ ls then render x y else t (x, y)) := by
  induction ls with
  | nil => intro t _; rw [if_neg (List.not_mem_nil _)]; rfl
  | cons a ls ih =>
    intro t hlt
    rw [List.foldl_cons, ih _ (fun b hb => hlt b (List.mem_cons_of_mem a hb))]
    by_cases hmem : (x + y * w) % N ∈ ls
    · rw [if_pos hmem, if_pos (List.mem_cons_of_mem a hmem)]
    · rw [if_neg hmem,
        worker_pixel render w h N a x y (hlt a (List.mem_cons_self a ls)) hx hy t]
      by_cases ha : (x + y * w) % N = a
      · rw [if_pos ha, if_pos (by rw [ha]; exact List.mem_cons_self a ls)]
      · rw [if_neg ha, if_neg (by
          intro hc
          rcases List.mem_cons.mp hc with h1 | h2
          exacts [ha h1, hmem h2])]

/-- C5: with deterministic per-pixel colors (the zero-jitter hypothesis under
which `trace_partial_image`'s write at `(x, y)` is a function `render x y` of
the pixel alone), rendering a frame with `N ≥ 1` interlaced workers — each
running `trace_partial_image` into its own `PartialFramebuffer::new` buffer —
and scattering every partial buffer back into the target with
`PartialFramebuffer::update` produces, at every pixel of the frame, exactly
the value produced by rendering with a single worker, whether or not `N`
divides `width * height` evenly. -/
theorem c5_interlaced_equals_single (render : ℕ → ℕ → Vec3) (w h N : ℕ) (t : Target)
    (x y : ℕ) (hN : 1 ≤ N) (hx : x < w) (hy : y < h) :
    traceImageAsync render w h N t (x, y) =
    tracePartialImage targetSet render t w h 1 0 (x, y) := by
  have hmem : (x + y * w) % N ∈ List.range N :=
    List.mem_range.mpr (Nat.mod_lt _ (lt_of_lt_of_le Nat.zero_lt_one hN))
  rw [traceImageAsync,
    workers_fold render w h N x y hx hy (List.range N) t
      (fun b hb => List.mem_range.mp hb),
    if_pos hmem, single_worker_pixel render w h t x y hx hy]

theorem c5_interlaced_equals_single_witness :
    1 ≤ 2 ∧ 3 < 4 ∧ 1 < 4 ∧
    traceImageAsync renderXY 4 4 2 target0 (3, 1) =
      tracePartialImage targetSet renderXY target0 4 4 1 0 (3, 1) :=
  ⟨by norm_num, by norm_num, by norm_num,
    c5_interlaced_equals_single renderXY 4 4 2 target0 3 1 (by norm_num) (by norm_num)
      (by norm_num)⟩

end RayTracer
